import Mathlib

/-!
# opengl_video_player.cpp: pacing loop, audio queue and exit codes

A shallow embedding of `src/opengl_video_player.cpp`.

* The program only talks to external libraries (FFmpeg, GLFW/OpenGL, XAudio2).  Every value a
  library hands back and the program branches on is an input of the model (`Input`, `Packet`,
  `VFrame`, `AFrame`, `VideoSetup`, `AudioSetup`), and the two pieces of the outside world that the
  program observes repeatedly are driven by an environment `Env`: the steady clock
  (`Env.work`, the wall time that passes before each clock reading) and the XAudio2 source voice
  (`Env.drain`, the number of buffers the device finishes before each interaction).
* Every externally visible action is appended to `World.trace`.
* A `double` is the rational it denotes, and every `double` operation of the source is the
  exact operation followed by `toDouble`: round to nearest, ties to even, 53 significant bits.
  The exponent range is not modelled: a time base with a zero denominator (a non-finite
  `av_q2d`) is outside the model. The steady clock counts whole nanoseconds.
* `int` is `ℤ`, with `wrapInt32` wherever the source converts or multiplies; `uint8_t` is
  `Fin 256`; pointers to library objects are `Bool` (non-null), pointers to PCM blocks are
  indices into `World.heap`.
* Behaviour that C leaves undefined (calling through a null pointer, `memcpy` past the end of the
  scratch vector, a negative allocation size) is the outcome `Res.fault`; the back-pressure loop is
  run with fuel and `Res.stuck` is "still polling when the fuel ran out".
-/

namespace VideoPlayer

/-! ## Machine values -/

/-- One `uint8_t`. -/
abbrev Byte := Fin 256

/-- The value of a 32-bit `int` after two's-complement wrap-around of the mathematical value. -/
def wrapInt32 (z : ℤ) : ℤ := (z + 2147483648) % 4294967296 - 2147483648

/-- The conversion `int(x)` of a `double`: truncation toward zero. -/
def truncToInt (x : ℚ) : ℤ := if 0 ≤ x then ⌊x⌋ else ⌈x⌉

/-- Rounding of a rational to the nearest integer, ties to the even one. -/
def roundEven (q : ℚ) : ℤ :=
  if q - ⌊q⌋ < 1 / 2 then ⌊q⌋
  else if 1 / 2 < q - ⌊q⌋ then ⌊q⌋ + 1
  else if ⌊q⌋ % 2 = 0 then ⌊q⌋ else ⌊q⌋ + 1

/-- The spacing of `double` values around `x`: `2 ^ (e - 52)` when `2 ^ e ≤ |x| < 2 ^ (e + 1)`. -/
def ulp (x : ℚ) : ℚ := (2 : ℚ) ^ (Int.log 2 |x| - 52)

/-- The `double` nearest to `x` (round to nearest, ties to even): the result of a `double`
operation whose exact result is `x`, and of converting an integer `x` to `double`. -/
def toDouble (x : ℚ) : ℚ := if x = 0 then 0 else (roundEven (x / ulp x) : ℚ) * ulp x

/-- The `double` literal `0.003`. -/
def d003 : ℚ := toDouble (3 / 1000)

/-- The `double` literal `0.3`. -/
def d03 : ℚ := toDouble (3 / 10)

/-- The struct `AVRational` of FFmpeg. -/
structure AVRational where
  num : ℤ
  den : ℤ

/-- The function `av_q2d` of FFmpeg: `q.num / (double) q.den`. For `q.den = 0` the source yields an
infinity or a NaN, which the model does not represent (it yields 0): such a time base is outside
the model. -/
def av_q2d (q : AVRational) : ℚ := toDouble (toDouble q.num / toDouble q.den)

/-! ## The outside world -/

/-- An `XAUDIO2_BUFFER` as filled in by `queueAudioFrame` (the other fields stay zero). -/
structure XBuffer where
  AudioBytes : ℤ
  pAudioData : Nat
  pContext : Nat
deriving DecidableEq, Repr

/-- Externally visible actions, in program order. -/
inductive Event where
  | usage
  | stderr (msg : String)
  | networkInit
  | openInput
  | findStreamInfo
  | findBestStream (video : Bool)
  | openDecoder (video : Bool)
  | createWindow (W H : ℤ)
  | createTexture (W H : ℤ)
  | xaudio2Create
  | createMasteringVoice
  | createSourceVoice (rate : ℤ)
  | startVoice
  | sleepMs (ms : ℤ)
  | present (pts : ℚ) (clock : ℤ)
  | pollEvents
  | getState (queued : Nat)
  | newBlock (id : Nat) (data : List Byte)
  | submit (xb : XBuffer) (queued : Nat)
  | cleanup (withAudio : Bool)
deriving DecidableEq, Repr

/-- What the environment does on its own. `work k` is the wall time, in nanoseconds, that
passes before the `k`-th reading of the steady clock (processing time, scheduling delays,
over-sleeping);
`drain k` is the number of buffers the audio device finishes before the `k`-th call made on the
source voice. -/
structure Env where
  work : Nat → Nat
  drain : Nat → Nat

/-- State of the outside world. `clock` is the steady clock in nanoseconds (the tick count of a
`steady_clock::time_point`), `queued` the number of
buffers pending on the source voice (`XAUDIO2_VOICE_STATE::BuffersQueued`), `heap` the PCM blocks
allocated with `new uint8_t[]`. -/
structure World where
  clock : ℤ := 0
  reads : Nat := 0
  queued : Nat := 0
  ticks : Nat := 0
  heap : List (List Byte) := []
  trace : List Event := []

/-- Outcome of a piece of the program: it ran to its end with a value, it is still polling the
audio device when the fuel ran out, or it ran into undefined behaviour. -/
inductive Res (α : Type) where
  | ok (a : α) (w : World)
  | stuck (w : World)
  | fault (w : World)

/-- The world in which an outcome was reached. -/
def Res.world {α : Type} : Res α → World
  | Res.ok _ w => w
  | Res.stuck w => w
  | Res.fault w => w

/-- Records an action. -/
def World.emit (w : World) (e : Event) : World := { w with trace := w.trace ++ [e] }

/-- The call `Clock::now()`. -/
def clockNow (env : Env) (w : World) : ℤ × World :=
  let t := w.clock + (env.work w.reads : ℤ)
  (t, { w with clock := t, reads := w.reads + 1 })

/-- The helper `sleepMs` (source lines 72-74): the clock advances by the requested time; a
non-positive request returns at once. -/
def sleepMs (w : World) (ms : ℤ) : World :=
  { w with clock := w.clock + max ms 0 * 1000000,
           trace := w.trace ++ [Event.sleepMs ms] }

/-- The call `as.src->GetState(&st)`; the result is `st.BuffersQueued`. -/
def getState (env : Env) (w : World) : Nat × World :=
  let q := w.queued - env.drain w.ticks
  (q, { w with queued := q, ticks := w.ticks + 1, trace := w.trace ++ [Event.getState q] })

/-- The call `as.src->SubmitSourceBuffer(&xb)`: one more buffer is pending. -/
def submitSourceBuffer (env : Env) (w : World) (xb : XBuffer) : World :=
  let q := w.queued - env.drain w.ticks + 1
  { w with queued := q, ticks := w.ticks + 1, trace := w.trace ++ [Event.submit xb q] }

/-- The statement `new uint8_t[n]` followed by `memcpy` of `data` into it: a fresh block. -/
def newBlock (w : World) (data : List Byte) : Nat × World :=
  (w.heap.length,
    { w with heap := w.heap ++ [data], trace := w.trace ++ [Event.newBlock w.heap.length data] })

/-! ## Grouped state (source lines 77-92) -/

/-- The struct `VideoState`. -/
structure VideoState where
  dec : Bool := false
  sws : Bool := false
  W : ℤ := 0
  H : ℤ := 0
  win : Bool := false
  tex : Bool := false

/-- The struct `AudioState`. -/
structure AudioState where
  dec : Bool := false
  swr : Bool := false
  xa : Bool := false
  master : Bool := false
  src : Bool := false
  deviceRate : ℤ := 0
  scratch : List Byte := []

/-! ## Video initialisation (source lines 97-121) -/

/-- What the libraries answer during `initVideoStream`. -/
structure VideoSetup where
  decoderOpened : Bool
  width : ℤ
  height : ℤ
  windowCreated : Bool

/-- The function `initVideoStream`. -/
def initVideoStream (o : VideoSetup) (vs : VideoState) (w : World) : Bool × VideoState × World :=
  let w1 := w.emit (Event.openDecoder true)
  let vs1 := { vs with dec := true }
  if !o.decoderOpened then (false, vs1, w1)
  else
    let vs2 := { vs1 with W := o.width, H := o.height, sws := true }
    let w2 := w1.emit (Event.createWindow vs2.W vs2.H)
    let vs3 := { vs2 with win := o.windowCreated }
    if !vs3.win then (false, vs3, w2.emit (Event.stderr "window fail"))
    else (true, { vs3 with tex := true }, w2.emit (Event.createTexture vs3.W vs3.H))

/-! ## Audio initialisation (source lines 143-172) -/

/-- What the libraries answer during `initAudio`: whether the decoder opens and whether each
XAudio2 creation call stores an object. -/
structure AudioSetup where
  decoderOpened : Bool
  xaCreated : Bool
  masterCreated : Bool
  inputSampleRate : ℤ
  srcCreated : Bool

/-- The function `initAudio`. The results of `XAudio2Create`, `CreateMasteringVoice` and
`CreateSourceVoice` are not inspected by the source; the object each call is meant to store is used
right away, which is a call through a null pointer when the creation failed. -/
def initAudio (o : AudioSetup) (au : AudioState) (w : World) : Res (Bool × AudioState) :=
  let w1 := w.emit (Event.openDecoder false)
  let au1 := { au with dec := true }
  if !o.decoderOpened then Res.ok (false, au1) w1
  else
    let au2 := { au1 with swr := true }
    let w2 := w1.emit Event.xaudio2Create
    let au3 := { au2 with xa := o.xaCreated }
    if !au3.xa then Res.fault w2
    else
      let w3 := w2.emit Event.createMasteringVoice
      let au4 := { au3 with master := o.masterCreated }
      if !au4.master then Res.fault w3
      else
        let au5 := { au4 with deviceRate := o.inputSampleRate }
        let w4 := w3.emit (Event.createSourceVoice au5.deviceRate)
        let au6 := { au5 with src := o.srcCreated }
        if !au6.src then Res.fault w4
        else Res.ok (true, au6) (w4.emit Event.startVoice)

/-! ## Queueing one decoded audio frame (source lines 175-190) -/

/-- What the libraries answer for one decoded audio frame: `maxS` from `swr_get_out_samples`,
`maxB` from `av_samples_get_buffer_size`, `outS` from `swr_convert`, and `pcm`, the bytes
`swr_convert` stores at the start of the destination buffer. -/
structure AFrame where
  maxS : ℤ
  maxB : ℤ
  outS : ℤ
  pcm : List Byte

/-- The call `std::vector<uint8_t>::resize(n)`: cut, or pad with zero bytes. -/
def resize (v : List Byte) (n : Nat) : List Byte := v.take n ++ List.replicate (n - v.length) 0

/-- The effect of `swr_convert` on its destination: `data` replaces the start of `buf`. -/
def writeAt0 (buf data : List Byte) : List Byte := (data ++ buf.drop data.length).take buf.length

/-- Line 180: `if ((int)as.scratch.size() < maxB) as.scratch.resize(maxB);`. -/
def growScratch (scratch : List Byte) (maxB : ℤ) : List Byte :=
  if wrapInt32 scratch.length < maxB then resize scratch maxB.toNat else scratch

/-- Line 184: `int outB = outS * 2 * 2;`. -/
def outBytes (outS : ℤ) : ℤ := wrapInt32 (outS * 2 * 2)

/-- Line 186: `while (st.BuffersQueued >= 48) { sleepMs(2); as.src->GetState(&st); }`, entered
with the count `q` of the poll before the loop. -/
def waitBelow48 (env : Env) : Nat → Nat → World → Res Unit
  | 0, q, w => if 48 ≤ q then Res.stuck w else Res.ok () w
  | fuel + 1, q, w =>
    if 48 ≤ q then
      waitBelow48 env fuel (getState env (sleepMs w 2)).1 (getState env (sleepMs w 2)).2
    else Res.ok () w

/-- The function `queueAudioFrame`. -/
def queueAudioFrame (env : Env) (fuel : Nat) (au : AudioState) (fA : AFrame) (w : World) :
    Res AudioState :=
  if wrapInt32 au.scratch.length < fA.maxB ∧ fA.maxB < 0 then Res.fault w
  else
    let au1 := { au with scratch := writeAt0 (growScratch au.scratch fA.maxB) fA.pcm }
    if fA.outS ≤ 0 then Res.ok au1 w
    else
      let outB := outBytes fA.outS
      match waitBelow48 env fuel (getState env w).1 (getState env w).2 with
      | Res.stuck w2 => Res.stuck w2
      | Res.fault w2 => Res.fault w2
      | Res.ok _ w2 =>
        if outB < 0 ∨ (au1.scratch.length : ℤ) < outB then Res.fault w2
        else
          let blk := newBlock w2 (au1.scratch.take outB.toNat)
          Res.ok au1 (submitSourceBuffer env blk.2
            { AudioBytes := outB, pAudioData := blk.1, pContext := blk.1 })

/-- Lines 248-249: `while (avcodec_receive_frame(as.dec, fA) == 0) queueAudioFrame(as, fA);`. -/
def queueAudioFrames (env : Env) (fuel : Nat) :
    AudioState → List AFrame → World → Res AudioState
  | au, [], w => Res.ok au w
  | au, fA :: rest, w =>
    match queueAudioFrame env fuel au fA w with
    | Res.ok au1 w1 => queueAudioFrames env fuel au1 rest w1
    | Res.stuck w1 => Res.stuck w1
    | Res.fault w1 => Res.fault w1

/-! ## Presenting a frame (source lines 124-138) -/

/-- The function `presentVideoFrame` (with the `sws_scale` call before it): the frame with
timestamp `pts` is on screen at the current instant of the clock. -/
def presentVideoFrame (w : World) (pts : ℚ) : World := w.emit (Event.present pts w.clock)

/-! ## The dispatch loop (source lines 212-252) -/

/-- One decoded video frame: `fV->pts` and whether Escape is held at the poll after it. -/
structure VFrame where
  pts : ℤ
  escape : Bool

/-- The timing variables and the `quit` flag of `main`. -/
structure Pacer where
  playStart : ℤ
  firstPts : ℚ
  quit : Bool

/-- Line 235: `if (lead > 0.003) { if (lead > 0.3) lead = 0.3; sleepMs(int(lead * 1000)); }`,
the sleep requested for a frame whose lead is the `double` `lead`, if any. -/
def pacingSleep (lead : ℚ) : Option ℤ :=
  if lead > d003 then
    some (truncToInt (toDouble ((if lead > d03 then d03 else lead) * 1000)))
  else none

/-- Line 230: `if (firstPts < 0) { firstPts = pts; playStart = Clock::now(); }`. -/
def anchor (env : Env) (p : Pacer) (pts : ℚ) (w : World) : Pacer × World :=
  if p.firstPts < 0 then
    ({ p with firstPts := pts, playStart := (clockNow env w).1 }, (clockNow env w).2)
  else (p, w)

/-- Lines 231-234: the lead of a frame over the wall clock, once anchored. The elapsed ticks are
converted to `double` and divided by `1e9` (`duration<double>` of a nanosecond count). -/
def frameLead (env : Env) (p : Pacer) (pts : ℚ) (w : World) : ℚ :=
  let target := toDouble (pts - p.firstPts)
  let wall := toDouble (toDouble (((clockNow env w).1 - p.playStart : ℤ) : ℚ) / 1000000000)
  toDouble (target - wall)

/-- Line 229: `double pts = fV->pts * av_q2d(tb);`. -/
def framePts (tb : AVRational) (fV : VFrame) : ℚ := toDouble (toDouble fV.pts * av_q2d tb)

/-- Lines 229-243: the body of the video `while` loop for one decoded frame. -/
def videoFrame (env : Env) (tb : AVRational) (p : Pacer) (fV : VFrame) (w : World) :
    Pacer × World :=
  let pts := framePts tb fV
  let a := anchor env p pts w
  let lead := frameLead env a.1 pts a.2
  let w2 := (clockNow env a.2).2
  let w3 := match pacingSleep lead with
    | some ms => sleepMs w2 ms
    | none => w2
  let w4 := (presentVideoFrame w3 pts).emit Event.pollEvents
  ({ a.1 with quit := a.1.quit || fV.escape }, w4)

/-- Line 228: `while (avcodec_receive_frame(vs.dec, fV) == 0) { ... }` over the frames the
decoder yields for one packet. -/
def videoFrames (env : Env) (tb : AVRational) : Pacer → List VFrame → World → Pacer × World
  | p, [], w => (p, w)
  | p, fV :: rest, w =>
    videoFrames env tb (videoFrame env tb p fV w).1 rest (videoFrame env tb p fV w).2

/-- One turn of the outer loop as the libraries see it: whether the window asks to close before
the packet is read, the packet's stream index, whether the decoder accepts it, and the frames
each decoder would then yield. -/
structure Packet where
  shouldClose : Bool
  stream_index : ℤ
  sendOk : Bool
  video : List VFrame
  audio : List AFrame

/-- Lines 223-252: the outer `while` loop; the packet list ends where `av_read_frame` fails. -/
def mainLoop (env : Env) (fuel : Nat) (tb : AVRational) (vIdx aIdx : ℤ) (haveAudio : Bool) :
    List Packet → Pacer → AudioState → World → Res (Pacer × AudioState)
  | [], p, au, w => Res.ok (p, au) w
  | pkt :: rest, p, au, w =>
    if p.quit || pkt.shouldClose then Res.ok (p, au) w
    else if pkt.stream_index = vIdx then
      if pkt.sendOk then
        mainLoop env fuel tb vIdx aIdx haveAudio rest
          (videoFrames env tb p pkt.video w).1 au (videoFrames env tb p pkt.video w).2
      else mainLoop env fuel tb vIdx aIdx haveAudio rest p au w
    else if haveAudio && decide (pkt.stream_index = aIdx) then
      if pkt.sendOk then
        match queueAudioFrames env fuel au pkt.audio w with
        | Res.ok au1 w1 => mainLoop env fuel tb vIdx aIdx haveAudio rest p au1 w1
        | Res.stuck w1 => Res.stuck w1
        | Res.fault w1 => Res.fault w1
      else mainLoop env fuel tb vIdx aIdx haveAudio rest p au w
    else mainLoop env fuel tb vIdx aIdx haveAudio rest p au w

/-! ## The function `main` (source lines 193-264) -/

/-- Everything the command line and the libraries decide for one run. -/
structure Input where
  argc : ℤ
  openOk : Bool
  vIdx : ℤ
  aIdx : ℤ
  video : VideoSetup
  audio : AudioSetup
  tb : AVRational
  packets : List Packet

/-- Line 210: `bool haveAudio = (aIdx >= 0) && initAudio(fmt, aIdx, as);`. -/
def initHaveAudio (inp : Input) (w : World) : Res (Bool × AudioState) :=
  if 0 ≤ inp.aIdx then initAudio inp.audio {} w else Res.ok (false, {}) w

/-- The function `main`; the value is the exit code. -/
def main (env : Env) (fuel : Nat) (inp : Input) : Res ℤ :=
  let w0 : World := {}
  if inp.argc < 2 then Res.ok 0 (w0.emit Event.usage)
  else
    let w1 := (w0.emit Event.networkInit).emit Event.openInput
    if !inp.openOk then Res.ok 1 (w1.emit (Event.stderr "open fail"))
    else
      let w2 := ((w1.emit Event.findStreamInfo).emit (Event.findBestStream true)).emit
        (Event.findBestStream false)
      if inp.vIdx < 0 then Res.ok 1 (w2.emit (Event.stderr "no video stream"))
      else
        let v := initVideoStream inp.video {} w2
        if !v.1 then Res.ok 1 v.2.2
        else
          match initHaveAudio inp v.2.2 with
          | Res.stuck w3 => Res.stuck w3
          | Res.fault w3 => Res.fault w3
          | Res.ok (haveAudio, au) w3 =>
            let start := clockNow env w3
            match mainLoop env fuel inp.tb inp.vIdx inp.aIdx haveAudio inp.packets
                { playStart := start.1, firstPts := -1, quit := false } au start.2 with
            | Res.stuck w4 => Res.stuck w4
            | Res.fault w4 => Res.fault w4
            | Res.ok _ w4 => Res.ok 0 (w4.emit (Event.cleanup haveAudio))

/-! ## Reading traces -/

/-- The presentations recorded in a trace, in order: timestamp of the frame and the instant
of the clock (nanoseconds) at which it was put on screen. -/
def presents : List Event → List (ℚ × ℤ)
  | [] => []
  | Event.present t c :: es => (t, c) :: presents es
  | _ :: es => presents es

/-- Seconds between the presentations `i` and `i + 1` of a list of presentations. -/
def interval (ps : List (ℚ × ℤ)) (i : Nat) : ℚ :=
  (((ps.getD (i + 1) (0, 0)).2 - (ps.getD i (0, 0)).2 : ℤ) : ℚ) / 1000000000

/-- Difference between the timestamps of the presentations `i` and `i + 1`. -/
def ptsGap (ps : List (ℚ × ℤ)) (i : Nat) : ℚ :=
  (ps.getD (i + 1) (0, 0)).1 - (ps.getD i (0, 0)).1

/-- How early a presentation `x` is for a timeline with epoch `t0` and anchor `a`: its target
`x.1 - t0` minus the seconds elapsed since the anchor. -/
def earlyAt (t0 : ℚ) (a : ℤ) (x : ℚ × ℤ) : ℚ :=
  (x.1 - t0) - ((x.2 - a : ℤ) : ℚ) / 1000000000

/-- How early presentation `i` is on the timeline set by the first presentation. -/
def earliness (ps : List (ℚ × ℤ)) (i : Nat) : ℚ :=
  earlyAt (ps.getD 0 (0, 0)).1 (ps.getD 0 (0, 0)).2 (ps.getD i (0, 0))

/-- Lines 230-235 when no time passes outside of sleeps: from the timing variables
`s = (firstPts, playStart)` and the clock `c`, the timing variables and the clock with which the
frame of timestamp `t` is presented. -/
def pureStep (s : ℚ × ℤ) (c : ℤ) (t : ℚ) : (ℚ × ℤ) × ℤ :=
  let s1 : ℚ × ℤ := if s.1 < 0 then (t, c) else s
  let lead := toDouble (toDouble (t - s1.1) -
    toDouble (toDouble (((c - s1.2 : ℤ) : ℚ)) / 1000000000))
  (s1, match pacingSleep lead with
    | some ms => c + max ms 0 * 1000000
    | none => c)

/-- The presentations of frames with timestamps `ts` when no time passes outside of sleeps. -/
def pureRun (s : ℚ × ℤ) (c : ℤ) : List ℚ → List (ℚ × ℤ)
  | [] => []
  | t :: ts => (t, (pureStep s c t).2) :: pureRun (pureStep s c t).1 (pureStep s c t).2 ts

/-- The timing variables and the clock after frames with timestamps `ts`. -/
def pureEnd (s : ℚ × ℤ) (c : ℤ) : List ℚ → (ℚ × ℤ) × ℤ
  | [] => (s, c)
  | t :: ts => pureEnd (pureStep s c t).1 (pureStep s c t).2 ts

/-- The timestamps of the frames decoded from the packets of the video stream, in order. -/
def videoPts (tb : AVRational) (vIdx : ℤ) : List Packet → List ℚ
  | [] => []
  | pkt :: rest =>
    (if pkt.stream_index = vIdx ∧ pkt.sendOk = true then pkt.video.map (framePts tb) else []) ++
      videoPts tb vIdx rest

/-- The presentations of a whole run of `main`, in order. -/
def mainPresents (env : Env) (fuel : Nat) (inp : Input) : List (ℚ × ℤ) :=
  presents (main env fuel inp).world.trace

/-- Nothing ends playback before the input is exhausted: the window never asks to close and
Escape is never pressed. -/
def Uninterrupted (inp : Input) : Prop :=
  ∀ pkt ∈ inp.packets, pkt.shouldClose = false ∧ ∀ f ∈ pkt.video, f.escape = false

/-- An environment in which no wall time passes outside of sleeps and the audio device finishes
one buffer before every call. -/
def idealEnv : Env := { work := fun _ => 0, drain := fun _ => 1 }

/-- The pending-buffer count an action reveals, if any. -/
def Event.pending : Event → Option Nat
  | Event.getState q => some q
  | Event.submit _ q => some q
  | _ => none

/-- The count returned by the last poll that no submission has used yet, after the actions
`evs`, starting from `s`. -/
def lastPoll : Option Nat → List Event → Option Nat
  | s, [] => s
  | _, Event.getState q :: es => lastPoll (some q) es
  | _, Event.submit _ _ :: es => lastPoll none es
  | s, _ :: es => lastPoll s es

/-- Every submission in `evs` comes after a poll of its own that returned less than 48. -/
def submitsGuarded : Option Nat → List Event → Bool
  | _, [] => true
  | _, Event.getState q :: es => submitsGuarded (some q) es
  | s, Event.submit _ _ :: es =>
    (match s with
      | some q => decide (q < 48)
      | none => false) && submitsGuarded none es
  | s, _ :: es => submitsGuarded s es

/-- The actions of the back-pressure loop while it waits: a sleep of 2 ms, or a poll that
returned a count of at least 48 (and at most `b`). -/
def WaitEvents (b : Nat) (evs : List Event) : Prop :=
  ∀ e ∈ evs, e = Event.sleepMs 2 ∨ ∃ n, 48 ≤ n ∧ n ≤ b ∧ e = Event.getState n

/-- What lines 185-186 leave behind when started in world `w`. -/
def WaitPost (w : World) : Res Unit → Prop
  | Res.ok _ w1 => ∃ evs q, w1.trace = w.trace ++ (evs ++ [Event.getState q]) ∧
      WaitEvents w.queued evs ∧ q < 48 ∧ w1.queued = q ∧ q ≤ w.queued ∧ w1.heap = w.heap
  | Res.stuck w1 => ∃ evs, w1.trace = w.trace ++ evs ∧ WaitEvents w.queued evs ∧
      w1.queued ≤ w.queued ∧ w1.heap = w.heap
  | Res.fault _ => False

/-- The device finishes at least one buffer in any `F` consecutive calls made on the voice. -/
def Fair (env : Env) (F : Nat) : Prop := ∀ k, ∃ j, j < F ∧ 0 < env.drain (k + j)

/-- What the libraries guarantee for one audio frame: `swr_convert` returns at most the
`maxS` samples it was given room for, the buffer size computed for `maxS` stereo 16-bit samples
is at least `4 * maxS`, and that size is an `int`. -/
def Contract (fA : AFrame) : Prop :=
  fA.outS ≤ fA.maxS ∧ 4 * fA.maxS ≤ fA.maxB ∧ fA.maxB < 2147483648

/-- What one call of `queueAudioFrame`, started in world `w` with audio state `au`, leaves
behind. -/
def QueuePost (au : AudioState) (fA : AFrame) (w : World) : Res AudioState → Prop
  | Res.ok au1 w1 =>
    au1 = { au with scratch := writeAt0 (growScratch au.scratch fA.maxB) fA.pcm } ∧
    (fA.outS ≤ 0 → w1 = w) ∧
    (0 < fA.outS → ∃ evs q,
      w1.trace = w.trace ++ (evs ++ [Event.getState q,
        Event.newBlock w.heap.length (au1.scratch.take (outBytes fA.outS).toNat),
        Event.submit (XBuffer.mk (outBytes fA.outS) w.heap.length w.heap.length) w1.queued]) ∧
      WaitEvents w.queued evs ∧ q < 48 ∧ w1.queued ≤ q + 1 ∧ q ≤ w.queued ∧
      w1.heap = w.heap ++ [au1.scratch.take (outBytes fA.outS).toNat] ∧
      0 ≤ outBytes fA.outS ∧ outBytes fA.outS ≤ (au1.scratch.length : ℤ))
  | Res.stuck w1 =>
    0 < fA.outS ∧ ∃ evs, w1.trace = w.trace ++ evs ∧ WaitEvents w.queued evs ∧
      w1.queued ≤ w.queued ∧ w1.heap = w.heap
  | Res.fault w1 =>
    (w1 = w ∧ wrapInt32 au.scratch.length < fA.maxB ∧ fA.maxB < 0) ∨
    (0 < fA.outS ∧
      (outBytes fA.outS < 0 ∨
        ((writeAt0 (growScratch au.scratch fA.maxB) fA.pcm).length : ℤ) < outBytes fA.outS) ∧
      ∃ evs q, w1.trace = w.trace ++ (evs ++ [Event.getState q]) ∧
        WaitEvents w.queued evs ∧ q < 48 ∧ w1.queued = q ∧ q ≤ w.queued ∧ w1.heap = w.heap)

/-- The buffers handed to `SubmitSourceBuffer`, in order. -/
def submitted : List Event → List XBuffer
  | [] => []
  | Event.submit xb _ :: es => xb :: submitted es
  | _ :: es => submitted es

/-- A setup step of `main` fails: the file cannot be opened, no video stream is found, the
video decoder cannot be opened, or the window cannot be created. -/
def SetupFails (inp : Input) : Prop :=
  inp.openOk = false ∨ inp.vIdx < 0 ∨ inp.video.decoderOpened = false ∨
    inp.video.windowCreated = false

/-- Every XAudio2 creation call of `initAudio` stores an object. -/
def DeviceCreated (o : AudioSetup) : Prop :=
  o.xaCreated = true ∧ o.masterCreated = true ∧ o.srcCreated = true

/-- The audio frames of a run keep the library contract. -/
def AudioWellBehaved (inp : Input) : Prop :=
  ∀ pkt ∈ inp.packets, ∀ f ∈ pkt.audio, f.maxB < 2147483648 ∧ (0 < f.outS → Contract f)

/-! ## Concrete inputs -/

/-- Outcome of `initVideoStream` when the decoder opens and the 640x480 window is created. -/
def videoOk : VideoSetup :=
  { decoderOpened := true, width := 640, height := 480, windowCreated := true }

/-- Outcome of `initAudio` when the decoder opens and the device is created at 48 kHz. -/
def audioOk : AudioSetup :=
  { decoderOpened := true, xaCreated := true, masterCreated := true, inputSampleRate := 48000,
    srcCreated := true }

/-- A run with a video and an audio stream in which `XAudio2Create` fails. -/
def deviceFailureInput : Input :=
  { argc := 2, openOk := true, vIdx := 0, aIdx := 1, video := videoOk,
    audio := { audioOk with xaCreated := false }, tb := { num := 1, den := 1000 }, packets := [] }

/-- One video packet holding two frames, 40 ms apart. -/
def videoPacket : Packet :=
  { shouldClose := false, stream_index := 0, sendOk := true,
    video := [{ pts := 0, escape := false }, { pts := 40, escape := false }], audio := [] }

/-- One audio frame of one stereo sample, with room for 32. -/
def oneSample : AFrame := { maxS := 32, maxB := 128, outS := 1, pcm := [1, 2, 3, 4] }

/-- One audio packet holding `oneSample`. -/
def audioPacket : Packet :=
  { shouldClose := false, stream_index := 1, sendOk := true, video := [], audio := [oneSample] }

/-- A run with a video and an audio stream: one video packet, then one audio packet. -/
def sampleInput : Input :=
  { argc := 2, openOk := true, vIdx := 0, aIdx := 1, video := videoOk, audio := audioOk,
    tb := { num := 1, den := 1000 }, packets := [videoPacket, audioPacket] }

/-- A device that finishes nothing before the first two calls and one buffer before each later
call. -/
def slowEnv : Env := { work := fun _ => 0, drain := fun k => if k < 2 then 0 else 1 }

/-- A world in which 48 buffers are pending on the voice. -/
def fullWorld : World := { queued := 48 }

/-- One audio frame for which the resampler yields nothing. -/
def emptyFrame : AFrame := { maxS := 0, maxB := -22, outS := 0, pcm := [] }

/-- One audio frame of two stereo samples, with room for 64. -/
def twoSamples : AFrame :=
  { maxS := 64, maxB := 256, outS := 2, pcm := [5, 6, 7, 8, 9, 10, 11, 12] }

/-- A file that opens but holds only an audio stream (`AVERROR_STREAM_NOT_FOUND` as video
index). -/
def audioOnlyInput : Input :=
  { sampleInput with vIdx := -1381258232, aIdx := 0 }

/-- An environment in which 10 ms pass before every clock reading. -/
def busyEnv : Env := { work := fun _ => 10000000, drain := fun _ => 1 }

/-- Two frames with `pts` -5 and -4, at -0.5 s and -0.4 s in the time base 1/10. -/
def negativeFrames : List VFrame :=
  [{ pts := -5, escape := false }, { pts := -4, escape := false }]

/-- One video packet holding one frame with the given `pts`. -/
def framePacket (pts : ℤ) : Packet :=
  { shouldClose := false, stream_index := 0, sendOk := true,
    video := [{ pts := pts, escape := false }], audio := [] }

/-- A file without audio whose three video frames have `pts` 0, 1000 and 1040 in the time base
1/1000: a gap of 1 s followed by a gap of 40 ms. -/
def longGapInput : Input :=
  { argc := 2, openOk := true, vIdx := 0, aIdx := -1, video := videoOk, audio := audioOk,
    tb := { num := 1, den := 1000 },
    packets := [framePacket 0, framePacket 1000, framePacket 1040] }

/-- A file without audio whose two video frames have `pts` 0 and 3 in the time base 1/1000. -/
def threeMsInput : Input :=
  { argc := 2, openOk := true, vIdx := 0, aIdx := -1, video := videoOk, audio := audioOk,
    tb := { num := 1, den := 1000 }, packets := [framePacket 0, framePacket 3] }

/-- A file with video and audio: frames with `pts` 0 and 1 in the time base 1/4, an audio packet
between them. -/
def steadyInput : Input :=
  { argc := 2, openOk := true, vIdx := 0, aIdx := 1, video := videoOk, audio := audioOk,
    tb := { num := 1, den := 4 }, packets := [framePacket 0, audioPacket, framePacket 1] }

/-! ## Arithmetic helpers: rounding to `double` -/

theorem roundEven_ge_floor (q : ℚ) : ⌊q⌋ ≤ roundEven q := by
  unfold roundEven
  split_ifs <;> omega

theorem le_roundEven {n : ℤ} {q : ℚ} (h : (n : ℚ) ≤ q) : n ≤ roundEven q :=
  le_trans (Int.le_floor.mpr h) (roundEven_ge_floor q)

theorem roundEven_le {n : ℤ} {q : ℚ} (h : q ≤ (n : ℚ)) : roundEven q ≤ n := by
  have hf := Int.floor_le q
  have h0 : ⌊q⌋ ≤ n := Int.cast_le.mp (le_trans hf h)
  have h1 : ¬ q - ⌊q⌋ < 1 / 2 → ⌊q⌋ + 1 ≤ n := by
    intro hn
    have : ((⌊q⌋ : ℤ) : ℚ) < n := by linarith
    have := Int.cast_lt.mp this
    omega
  unfold roundEven
  split_ifs with a b c
  · exact h0
  · exact h1 a
  · exact h0
  · exact h1 a

theorem abs_roundEven_sub (q : ℚ) : |(roundEven q : ℚ) - q| ≤ 1 / 2 := by
  have hf := Int.floor_le q
  have hl := Int.lt_floor_add_one q
  rw [abs_le]
  unfold roundEven
  split_ifs with a b c
  · constructor <;> linarith
  · push_cast; constructor <;> linarith
  · constructor <;> linarith
  · push_cast; constructor <;> linarith

theorem roundEven_eq {n : ℤ} {q : ℚ} (h : |q - n| < 1 / 2) : roundEven q = n := by
  rw [abs_lt] at h
  have h1 := abs_le.mp (abs_roundEven_sub q)
  have h2 : ((roundEven q - n : ℤ) : ℚ) < 1 := by push_cast; linarith [h.1, h.2, h1.1, h1.2]
  have h3 : (-1 : ℚ) < ((roundEven q - n : ℤ) : ℚ) := by push_cast; linarith [h.1, h.2, h1.1, h1.2]
  have h4 : roundEven q - n < 1 := by exact_mod_cast h2
  have h5 : -1 < roundEven q - n := by exact_mod_cast h3
  omega

theorem ulp_pos (x : ℚ) : 0 < ulp x := by
  unfold ulp
  positivity

theorem ulp_of_bounds {x : ℚ} {e : ℤ} (h1 : (2 : ℚ) ^ e ≤ |x|) (h2 : |x| < (2 : ℚ) ^ (e + 1)) :
    ulp x = (2 : ℚ) ^ (e - 52) := by
  have hx : 0 < |x| := lt_of_lt_of_le (by positivity) h1
  have a : e ≤ Int.log 2 |x| := (Int.zpow_le_iff_le_log (by norm_num) hx).mp (by exact_mod_cast h1)
  have b : Int.log 2 |x| < e + 1 := (Int.lt_zpow_iff_log_lt (by norm_num) hx).mp (by exact_mod_cast h2)
  have : Int.log 2 |x| = e := by omega
  rw [ulp, this]

/-- For `x ≠ 0`, `2 ^ 52` spacings fit below `|x|` and `2 ^ 53` do not. -/
theorem ulp_bounds {x : ℚ} (hx : x ≠ 0) :
    (2 : ℚ) ^ 52 * ulp x ≤ |x| ∧ |x| < (2 : ℚ) ^ 53 * ulp x := by
  have hpos : 0 < |x| := abs_pos.mpr hx
  have h1 := Int.zpow_log_le_self (b := 2) (by norm_num) hpos
  have h2 := Int.lt_zpow_succ_log_self (b := 2) (by norm_num) |x|
  have e1 : (2 : ℚ) ^ 52 * ulp x = (2 : ℚ) ^ (Int.log 2 |x|) := by
    unfold ulp
    rw [← zpow_natCast, ← zpow_add₀ (by norm_num : (2 : ℚ) ≠ 0)]
    congr 1
    push_cast
    ring
  have e2 : (2 : ℚ) ^ 53 * ulp x = (2 : ℚ) ^ (Int.log 2 |x| + 1) := by
    unfold ulp
    rw [← zpow_natCast, ← zpow_add₀ (by norm_num : (2 : ℚ) ≠ 0)]
    congr 1
    push_cast
    ring
  rw [e1, e2]
  exact ⟨by exact_mod_cast h1, by exact_mod_cast h2⟩

theorem toDouble_zero : toDouble 0 = 0 := by simp [toDouble]

/-- Evaluation of `toDouble`: the binade of `x` and the nearest multiple of the spacing. -/
theorem toDouble_eval {x : ℚ} (e n : ℤ) (h1 : (2 : ℚ) ^ e ≤ |x|) (h2 : |x| < (2 : ℚ) ^ (e + 1))
    (h3 : |x / (2 : ℚ) ^ (e - 52) - n| < 1 / 2) : toDouble x = n * (2 : ℚ) ^ (e - 52) := by
  have hx : x ≠ 0 := by
    intro h
    rw [h, abs_zero] at h1
    exact absurd h1 (not_le.mpr (by positivity))
  rw [toDouble, if_neg hx, ulp_of_bounds h1 h2, roundEven_eq h3]

/-- Relative error of one rounding: at most `2 ^ -53`. -/
theorem abs_toDouble_sub (x : ℚ) : |toDouble x - x| ≤ |x| / 2 ^ 53 := by
  by_cases hx : x = 0
  · simp [hx, toDouble]
  · have hu := ulp_pos x
    have hb := (ulp_bounds hx).1
    have hr := abs_roundEven_sub (x / ulp x)
    have e : toDouble x - x = ((roundEven (x / ulp x) : ℚ) - x / ulp x) * ulp x := by
      rw [toDouble, if_neg hx]
      field_simp
    rw [e, abs_mul, abs_of_pos hu]
    have : |(roundEven (x / ulp x) : ℚ) - x / ulp x| * ulp x ≤ 1 / 2 * ulp x :=
      mul_le_mul_of_nonneg_right hr hu.le
    have h53 : (2 : ℚ) ^ 53 = 2 * 2 ^ 52 := by norm_num
    rw [le_div_iff₀ (by positivity)]
    nlinarith

theorem toDouble_nonneg {x : ℚ} (h : 0 ≤ x) : 0 ≤ toDouble x := by
  unfold toDouble
  split_ifs
  · exact le_refl 0
  · have hu := ulp_pos x
    have : (0 : ℤ) ≤ roundEven (x / ulp x) := le_roundEven (by simpa using div_nonneg h hu.le)
    have : (0 : ℚ) ≤ (roundEven (x / ulp x) : ℚ) := by exact_mod_cast this
    positivity

theorem toDouble_nonpos {x : ℚ} (h : x ≤ 0) : toDouble x ≤ 0 := by
  unfold toDouble
  split_ifs
  · exact le_refl 0
  · have hu := ulp_pos x
    have : roundEven (x / ulp x) ≤ (0 : ℤ) :=
      roundEven_le (by simpa using div_nonpos_of_nonpos_of_nonneg h hu.le)
    have : (roundEven (x / ulp x) : ℚ) ≤ 0 := by exact_mod_cast this
    exact mul_nonpos_of_nonpos_of_nonneg this hu.le

theorem ulp_cases (x : ℚ) : (∃ k : ℕ, ulp x * 2 ^ k = 1) ∨ 2 ≤ ulp x := by
  by_cases h : Int.log 2 |x| - 52 ≤ 0
  · left
    refine ⟨(52 - Int.log 2 |x|).toNat, ?_⟩
    unfold ulp
    rw [← zpow_natCast, ← zpow_add₀ (by norm_num : (2 : ℚ) ≠ 0)]
    have : Int.log 2 |x| - 52 + ((52 - Int.log 2 |x|).toNat : ℤ) = 0 := by omega
    rw [this, zpow_zero]
  · right
    unfold ulp
    have h1 : (1 : ℤ) ≤ Int.log 2 |x| - 52 := by omega
    calc (2 : ℚ) = 2 ^ (1 : ℤ) := by norm_num
      _ ≤ 2 ^ (Int.log 2 |x| - 52) := zpow_le_zpow_right₀ (by norm_num) h1

/-- Rounding never crosses an integer below `2 ^ 53` from above. -/
theorem le_toDouble_of_int_le {n : ℤ} {x : ℚ} (hn : 0 < n) (hn53 : n ≤ 2 ^ 53)
    (h : (n : ℚ) ≤ x) : (n : ℚ) ≤ toDouble x := by
  have hnq : (0 : ℚ) < n := by exact_mod_cast hn
  have hx0 : 0 < x := lt_of_lt_of_le hnq h
  have hx : x ≠ 0 := ne_of_gt hx0
  have hu := ulp_pos x
  rw [toDouble, if_neg hx]
  rcases ulp_cases x with ⟨k, hk⟩ | h2
  · have hq : ((n * 2 ^ k : ℤ) : ℚ) ≤ x / ulp x := by
      rw [le_div_iff₀ hu]
      push_cast
      calc (n : ℚ) * 2 ^ k * ulp x = n * (ulp x * 2 ^ k) := by ring
        _ = n := by rw [hk, mul_one]
        _ ≤ x := h
    have hr : ((n * 2 ^ k : ℤ) : ℚ) ≤ (roundEven (x / ulp x) : ℚ) := by
      exact_mod_cast le_roundEven hq
    calc (n : ℚ) = n * (ulp x * 2 ^ k) := by rw [hk, mul_one]
      _ = ((n * 2 ^ k : ℤ) : ℚ) * ulp x := by push_cast; ring
      _ ≤ (roundEven (x / ulp x) : ℚ) * ulp x := mul_le_mul_of_nonneg_right hr hu.le
  · have hb := (ulp_bounds hx).1
    rw [abs_of_pos hx0] at hb
    have hq : (((2 : ℤ) ^ 52 : ℤ) : ℚ) ≤ x / ulp x := by
      rw [le_div_iff₀ hu]
      push_cast
      exact hb
    have hr : (((2 : ℤ) ^ 52 : ℤ) : ℚ) ≤ (roundEven (x / ulp x) : ℚ) := by
      exact_mod_cast le_roundEven hq
    have hn' : (n : ℚ) ≤ 2 ^ 53 := by exact_mod_cast hn53
    push_cast at hr
    nlinarith

/-- Rounding never crosses an integer below `2 ^ 53` from below. -/
theorem toDouble_le_of_le_int {n : ℤ} {x : ℚ} (hx0 : 0 < x) (hn53 : n < 2 ^ 53)
    (h : x ≤ (n : ℚ)) : toDouble x ≤ (n : ℚ) := by
  have hx : x ≠ 0 := ne_of_gt hx0
  have hu := ulp_pos x
  rw [toDouble, if_neg hx]
  rcases ulp_cases x with ⟨k, hk⟩ | h2
  · have hq : x / ulp x ≤ ((n * 2 ^ k : ℤ) : ℚ) := by
      rw [div_le_iff₀ hu]
      push_cast
      calc x ≤ n := h
        _ = n * (ulp x * 2 ^ k) := by rw [hk, mul_one]
        _ = (n : ℚ) * 2 ^ k * ulp x := by ring
    have hr : (roundEven (x / ulp x) : ℚ) ≤ ((n * 2 ^ k : ℤ) : ℚ) := by
      exact_mod_cast roundEven_le hq
    calc (roundEven (x / ulp x) : ℚ) * ulp x ≤ ((n * 2 ^ k : ℤ) : ℚ) * ulp x :=
          mul_le_mul_of_nonneg_right hr hu.le
      _ = n * (ulp x * 2 ^ k) := by push_cast; ring
      _ = n := by rw [hk, mul_one]
  · exfalso
    have hb := (ulp_bounds hx).1
    rw [abs_of_pos hx0] at hb
    have hn' : (n : ℚ) < 2 ^ 53 := by exact_mod_cast hn53
    nlinarith

/-- Integers of magnitude below `2 ^ 53` convert to `double` exactly (non-negative case). -/
theorem toDouble_natCast {n : ℤ} (h0 : 0 ≤ n) (h53 : n < 2 ^ 53) : toDouble (n : ℚ) = n := by
  rcases eq_or_lt_of_le h0 with h | h
  · rw [← h]; simp [toDouble]
  · exact le_antisymm (toDouble_le_of_le_int (by exact_mod_cast h) h53 (le_refl _))
      (le_toDouble_of_int_le h h53.le (le_refl _))

theorem d003_eq : d003 = 3458764513820541 / 1152921504606846976 := by
  rw [d003, toDouble_eval (-9) 6917529027641082] <;> norm_num [abs_lt, le_abs]

theorem d03_eq : d03 = 5404319552844595 / 18014398509481984 := by
  rw [d03, toDouble_eval (-2) 5404319552844595] <;> norm_num [abs_lt, le_abs]

theorem toDouble_d03_ms : toDouble (d03 * 1000) = 300 := by
  rw [d03_eq, toDouble_eval 8 5277655813324800] <;> norm_num [abs_lt, le_abs]

theorem d003_bounds : (3 / 1000 : ℚ) ≤ d003 ∧ d003 ≤ 3 / 1000 + 1 / 2 ^ 60 := by
  rw [d003_eq]; norm_num

theorem d03_bounds : (3 / 10 : ℚ) - 1 / 2 ^ 54 ≤ d03 ∧ d03 ≤ 3 / 10 := by
  rw [d03_eq]; norm_num

theorem toDouble_one : toDouble 1 = 1 := by
  simpa using toDouble_natCast (n := 1) (by norm_num) (by norm_num)

theorem truncToInt_of_nonneg {x : ℚ} (h : 0 ≤ x) : truncToInt x = ⌊x⌋ := by
  simp [truncToInt, h]

/-! ## The sleep request -/

theorem pacingSleep_of_late {lead : ℚ} (h : lead ≤ d003) : pacingSleep lead = none := by
  simp [pacingSleep, not_lt.mpr h]

theorem pacingSleep_of_early {lead : ℚ} (h : d003 < lead) :
    pacingSleep lead = some (truncToInt (toDouble (min lead d03 * 1000))) := by
  have hmin : (if d03 < lead then d03 else lead) = min lead d03 := by
    split_ifs with h1
    · exact (min_eq_right h1.le).symm
    · exact (min_eq_left (not_lt.mp h1)).symm
  simp only [pacingSleep, gt_iff_lt, h, if_true]
  rw [hmin]

theorem clamped_ms_bounds {lead : ℚ} (h : d003 < lead) :
    (3 : ℚ) ≤ toDouble (min lead d03 * 1000) ∧ toDouble (min lead d03 * 1000) ≤ 300 := by
  have h1 := d003_bounds.1
  have h2 := d03_bounds
  have hlo : (3 / 1000 : ℚ) ≤ min lead d03 := le_min (by linarith) (by linarith [h2.1])
  have hhi : min lead d03 ≤ 3 / 10 := le_trans (min_le_right _ _) h2.2
  constructor
  · have := le_toDouble_of_int_le (n := 3) (x := min lead d03 * 1000) (by norm_num)
      (by norm_num) (by push_cast; linarith)
    simpa using this
  · have := toDouble_le_of_le_int (n := 300) (x := min lead d03 * 1000) (by linarith)
      (by norm_num) (by push_cast; linarith)
    simpa using this

theorem sleep_bounds {lead : ℚ} (h : d003 < lead) :
    3 ≤ truncToInt (toDouble (min lead d03 * 1000)) ∧
      truncToInt (toDouble (min lead d03 * 1000)) ≤ 300 := by
  obtain ⟨h3, h300⟩ := clamped_ms_bounds h
  rw [truncToInt_of_nonneg (by linarith)]
  constructor
  · exact Int.le_floor.mpr (by push_cast; exact h3)
  · have : ⌊toDouble (min lead d03 * 1000)⌋ ≤ ⌊(300 : ℚ)⌋ := Int.floor_mono h300
    have h3' : ⌊(300 : ℚ)⌋ = 300 := by
      rw [Int.floor_eq_iff]; norm_num
    omega

/-! ## One video frame -/

theorem anchor_trace (env : Env) (p : Pacer) (pts : ℚ) (w : World) :
    (anchor env p pts w).2.trace = w.trace := by
  simp only [anchor]
  split_ifs <;> simp [clockNow]

theorem videoFrame_early (env : Env) (tb : AVRational) (p : Pacer) (fV : VFrame) (w : World)
    (ms : ℤ) (hms : 0 ≤ ms)
    (h : pacingSleep (frameLead env (anchor env p (framePts tb fV) w).1 (framePts tb fV)
      (anchor env p (framePts tb fV) w).2) = some ms) :
    (videoFrame env tb p fV w).2.trace =
      w.trace ++ [Event.sleepMs ms,
        Event.present (framePts tb fV)
          ((clockNow env (anchor env p (framePts tb fV) w).2).1 + ms * 1000000),
        Event.pollEvents] := by
  simp [videoFrame, presentVideoFrame, h, sleepMs, World.emit, max_eq_left hms, anchor_trace,
    clockNow]

theorem videoFrame_late (env : Env) (tb : AVRational) (p : Pacer) (fV : VFrame) (w : World)
    (h : pacingSleep (frameLead env (anchor env p (framePts tb fV) w).1 (framePts tb fV)
      (anchor env p (framePts tb fV) w).2) = none) :
    (videoFrame env tb p fV w).2.trace =
      w.trace ++ [Event.present (framePts tb fV)
        (clockNow env (anchor env p (framePts tb fV) w).2).1, Event.pollEvents] := by
  simp [videoFrame, presentVideoFrame, h, World.emit, anchor_trace, clockNow]

/-! ## C1: the pacing rule -/

/-- C1. Pacing rule of the dispatch loop, in the `double` arithmetic of the source: for every
decoded video frame, with `lead = (pts - firstPts) - (wall time since the anchor)`, a lead above
`0.003` makes the loop request exactly one sleep, of `min lead 0.3` seconds converted to whole
milliseconds by `int(lead * 1000)`, which is between 3 and 300 ms, and then present; a lead of
at most `0.003` makes it present at once with no sleep request. -/
theorem pacing_rule (env : Env) (tb : AVRational) (p : Pacer) (fV : VFrame) (w : World) :
    let pts := toDouble (toDouble fV.pts * av_q2d tb)
    let a := anchor env p pts w
    let now := (clockNow env a.2).1
    let wall := toDouble (toDouble ((now - a.1.playStart : ℤ) : ℚ) / 1000000000)
    let lead := toDouble (toDouble (pts - a.1.firstPts) - wall)
    (d003 < lead →
      ∃ ms : ℤ, ms = truncToInt (toDouble (min lead d03 * 1000)) ∧ 3 ≤ ms ∧ ms ≤ 300 ∧
        pacingSleep lead = some ms ∧
        (videoFrame env tb p fV w).2.trace =
          w.trace ++ [Event.sleepMs ms, Event.present pts (now + ms * 1000000),
            Event.pollEvents]) ∧
    (lead ≤ d003 →
      pacingSleep lead = none ∧
      (videoFrame env tb p fV w).2.trace =
        w.trace ++ [Event.present pts now, Event.pollEvents]) := by
  intro pts a now wall lead
  constructor
  · intro h
    have hb := sleep_bounds h
    exact ⟨_, rfl, hb.1, hb.2, pacingSleep_of_early h,
      videoFrame_early env tb p fV w _ (by omega) (pacingSleep_of_early h)⟩
  · intro h
    exact ⟨pacingSleep_of_late h, videoFrame_late env tb p fV w (pacingSleep_of_late h)⟩

theorem pacing_rule_witness :
    (videoFrame idealEnv { num := 1, den := 1 } { playStart := 0, firstPts := 0, quit := false }
      { pts := 1, escape := false } {}).2.trace =
      [Event.sleepMs 300, Event.present 1 300000000, Event.pollEvents] := by
  have key := (pacing_rule idealEnv { num := 1, den := 1 }
      { playStart := 0, firstPts := 0, quit := false } { pts := 1, escape := false } {}).1
  simp only [anchor, clockNow, idealEnv, lt_irrefl, if_false, av_q2d, Int.cast_one,
    toDouble_one, div_one, mul_one, sub_zero, Nat.cast_zero, add_zero, Int.cast_zero,
    toDouble_zero, zero_div] at key
  obtain ⟨ms, h1, -, -, -, h5⟩ := key (by rw [d003_eq]; norm_num)
  have hms : ms = 300 := by
    rw [h1, min_eq_right (by rw [d03_eq]; norm_num), toDouble_d03_ms,
      truncToInt_of_nonneg (by norm_num), Int.floor_eq_iff]
    norm_num
  subst hms
  simp only [idealEnv]
  rw [h5]
  norm_num

/-! ## C2: the anchor -/

theorem d003_pos : 0 < d003 := lt_of_lt_of_le (by norm_num) d003_bounds.1

/-- Once the epoch is non-negative, no later frame changes the epoch or the anchor. -/
theorem videoFrames_keeps_anchor (env : Env) (tb : AVRational) :
    ∀ (frames : List VFrame) (p : Pacer) (w : World), 0 ≤ p.firstPts →
    (videoFrames env tb p frames w).1.firstPts = p.firstPts ∧
    (videoFrames env tb p frames w).1.playStart = p.playStart := by
  intro frames
  induction frames with
  | nil => intro p w _; exact ⟨rfl, rfl⟩
  | cons fV rest ih =>
    intro p w hp
    have ha : anchor env p (framePts tb fV) w = (p, w) := by simp [anchor, not_lt.mpr hp]
    have h1 : (videoFrame env tb p fV w).1.firstPts = p.firstPts := by
      simp [videoFrame, presentVideoFrame, ha]
    have h2 : (videoFrame env tb p fV w).1.playStart = p.playStart := by
      simp [videoFrame, presentVideoFrame, ha]
    obtain ⟨i1, i2⟩ := ih (videoFrame env tb p fV w).1 (videoFrame env tb p fV w).2
      (by rw [h1]; exact hp)
    simp only [videoFrames]
    exact ⟨i1.trans h1, i2.trans h2⟩

/-- While the epoch is negative, every frame takes the anchor anew and is presented without a
sleep. -/
theorem videoFrame_unanchored (env : Env) (tb : AVRational) (p : Pacer) (fV : VFrame)
    (w : World) (hp : p.firstPts < 0) :
    videoFrame env tb p fV w =
      ({ playStart := w.clock + env.work w.reads, firstPts := framePts tb fV,
         quit := p.quit || fV.escape },
       { w with
         clock := w.clock + env.work w.reads + env.work (w.reads + 1)
         reads := w.reads + 1 + 1
         trace := w.trace ++ [Event.present (framePts tb fV)
           (w.clock + env.work w.reads + env.work (w.reads + 1)), Event.pollEvents] }) := by
  have ha : anchor env p (framePts tb fV) w =
      ({ p with firstPts := framePts tb fV, playStart := w.clock + env.work w.reads },
        { w with clock := w.clock + env.work w.reads, reads := w.reads + 1 }) := by
    simp [anchor, hp, clockNow]
  have hs : pacingSleep (frameLead env (anchor env p (framePts tb fV) w).1 (framePts tb fV)
      (anchor env p (framePts tb fV) w).2) = none := by
    apply pacingSleep_of_late
    rw [ha]
    simp only [frameLead, clockNow, sub_self, toDouble_zero, zero_sub]
    refine le_trans (toDouble_nonpos ?_) d003_pos.le
    rw [neg_nonpos]
    apply toDouble_nonneg
    apply div_nonneg _ (by norm_num)
    apply toDouble_nonneg
    have : (0 : ℤ) ≤ w.clock + ↑(env.work w.reads) + ↑(env.work (w.reads + 1)) -
        (w.clock + ↑(env.work w.reads)) := by omega
    exact_mod_cast this
  unfold videoFrame
  simp only [hs]
  rw [ha]
  simp [presentVideoFrame, World.emit, clockNow]

theorem negativeFrames_pts :
    framePts { num := 1, den := 10 } { pts := -5, escape := false } = -1 / 2 ∧
    framePts { num := 1, den := 10 } { pts := -4, escape := false } =
      -3602879701896397 / 9007199254740992 := by
  have e1 : toDouble 1 = 1 := toDouble_one
  have e10 : toDouble 10 = 10 := by
    simpa using toDouble_natCast (n := 10) (by norm_num) (by norm_num)
  have etb : toDouble (1 / 10) = 3602879701896397 / 36028797018963968 := by
    rw [toDouble_eval (-4) 7205759403792794] <;> norm_num [abs_lt, le_abs]
  have e5 : toDouble (-5) = -5 := by
    rw [toDouble_eval 2 (-5629499534213120)] <;> norm_num [abs_lt, le_abs]
  have e4 : toDouble (-4) = -4 := by
    rw [toDouble_eval 2 (-4503599627370496)] <;> norm_num [abs_lt, le_abs]
  constructor
  · simp only [framePts, av_q2d, Int.cast_one, Int.cast_ofNat, Int.cast_neg, e1, e10, etb, e5]
    rw [toDouble_eval (-1) (-4503599627370496)] <;> norm_num [abs_lt, le_abs]
  · simp only [framePts, av_q2d, Int.cast_one, Int.cast_ofNat, Int.cast_neg, e1, e10, etb, e4]
    rw [toDouble_eval (-2) (-7205759403792794)] <;> norm_num [abs_lt, le_abs]

/-- C2 at the failing input. The first frame has `pts` -5 and the second -4 in the time base
1/10 (-0.5 s and -0.4 s); 10 ms pass before every clock reading. After the second frame the epoch
is the second frame's timestamp, not -0.5 s, and the anchor is the clock reading 0.03 s taken at
the second frame, not the reading 0.01 s taken at the first; the second frame is presented
without a sleep, 20 ms after the first, although its timestamp is 100 ms later. -/
theorem anchor_moves_on_negative_pts :
    (videoFrames busyEnv { num := 1, den := 10 } { playStart := 0, firstPts := -1, quit := false }
      negativeFrames {}).1.firstPts = -3602879701896397 / 9007199254740992 ∧
    (videoFrames busyEnv { num := 1, den := 10 } { playStart := 0, firstPts := -1, quit := false }
      negativeFrames {}).1.playStart = 30000000 ∧
    (videoFrames busyEnv { num := 1, den := 10 } { playStart := 0, firstPts := -1, quit := false }
      negativeFrames {}).2.trace =
      [Event.present (-1 / 2) 20000000, Event.pollEvents,
        Event.present (-3602879701896397 / 9007199254740992) 40000000, Event.pollEvents] := by
  obtain ⟨t1, t2⟩ := negativeFrames_pts
  simp only [negativeFrames, videoFrames]
  rw [videoFrame_unanchored busyEnv { num := 1, den := 10 }
    { playStart := 0, firstPts := -1, quit := false } { pts := -5, escape := false } {}
    (by norm_num)]
  rw [videoFrame_unanchored _ _ _ _ _ (by simp only [t1]; norm_num)]
  simp only [t1, t2, busyEnv]
  norm_num

/-! ## The back-pressure loop -/

theorem waitBelow48_of_lt (env : Env) (fuel q : Nat) (w : World) (h : q < 48) :
    waitBelow48 env fuel q w = Res.ok () w := by
  cases fuel <;> simp [waitBelow48, Nat.not_le.mpr h]

theorem waitBelow48_step (env : Env) (fuel q : Nat) (w : World) (h : 48 ≤ q) :
    waitBelow48 env (fuel + 1) q w =
      waitBelow48 env fuel (getState env (sleepMs w 2)).1 (getState env (sleepMs w 2)).2 := by
  simp [waitBelow48, h]

theorem WaitEvents.mono {b c : Nat} {evs : List Event} (h : WaitEvents b evs) (hbc : b ≤ c) :
    WaitEvents c evs := by
  intro e he
  rcases h e he with h1 | ⟨n, h1, h2, h3⟩
  · exact Or.inl h1
  · exact Or.inr ⟨n, h1, le_trans h2 hbc, h3⟩

theorem poll_wait_post (env : Env) : ∀ (fuel : Nat) (w : World),
    WaitPost w (waitBelow48 env fuel (getState env w).1 (getState env w).2) := by
  intro fuel
  induction fuel with
  | zero =>
    intro w
    by_cases h : 48 ≤ w.queued - env.drain w.ticks
    · simp only [waitBelow48, getState, h, if_true, WaitPost]
      refine ⟨[Event.getState (w.queued - env.drain w.ticks)], rfl, ?_, Nat.sub_le _ _, trivial⟩
      intro e he
      simp only [List.mem_singleton] at he
      exact Or.inr ⟨_, h, Nat.sub_le _ _, he⟩
    · simp only [waitBelow48, getState, h, if_false, WaitPost]
      refine ⟨[], _, by simp, ?_, by omega, rfl, Nat.sub_le _ _, trivial⟩
      intro e he
      simp at he
  | succ fuel ih =>
    intro w
    by_cases h : 48 ≤ w.queued - env.drain w.ticks
    · have hstep := waitBelow48_step env fuel _ (getState env w).2 h
      simp only [getState] at hstep ⊢
      rw [hstep]
      have := ih (sleepMs (getState env w).2 2)
      simp only [getState] at this
      revert this
      generalize waitBelow48 env fuel _ _ = r
      intro hr
      have hw : WaitEvents w.queued
          [Event.getState (w.queued - env.drain w.ticks), Event.sleepMs 2] := by
        intro e he
        simp only [List.mem_cons, List.mem_singleton, List.not_mem_nil, or_false] at he
        rcases he with he | he
        · exact Or.inr ⟨_, h, Nat.sub_le _ _, he⟩
        · exact Or.inl he
      cases r with
      | ok a w1 =>
        obtain ⟨evs, q, h1, h2, h3, h4, h5, h6⟩ := hr
        simp only [sleepMs] at h1 h2 h5 h6
        refine ⟨[Event.getState (w.queued - env.drain w.ticks), Event.sleepMs 2] ++ evs, q,
          by simp [h1], ?_, h3, h4, le_trans h5 (Nat.sub_le _ _), h6⟩
        intro e he
        rcases List.mem_append.mp he with he | he
        · exact hw e he
        · exact (h2.mono (Nat.sub_le _ _)) e he
      | stuck w1 =>
        obtain ⟨evs, h1, h2, h5, h6⟩ := hr
        simp only [sleepMs] at h1 h2 h5 h6
        refine ⟨[Event.getState (w.queued - env.drain w.ticks), Event.sleepMs 2] ++ evs,
          by simp [h1], ?_, le_trans h5 (Nat.sub_le _ _), h6⟩
        intro e he
        rcases List.mem_append.mp he with he | he
        · exact hw e he
        · exact (h2.mono (Nat.sub_le _ _)) e he
      | fault w1 => exact hr
    · simp only [waitBelow48, getState, h, if_false, WaitPost]
      refine ⟨[], _, by simp, ?_, by omega, rfl, Nat.sub_le _ _, trivial⟩
      intro e he
      simp at he

theorem wait_ok_of_drain (env : Env) : ∀ (fuel j : Nat) (w : World),
    w.queued ≤ 48 → 0 < env.drain (w.ticks + j) → j ≤ fuel →
    ∃ w1, waitBelow48 env fuel (getState env w).1 (getState env w).2 = Res.ok () w1 := by
  intro fuel
  induction fuel with
  | zero =>
    intro j w hq hd hj
    have hj0 : j = 0 := by omega
    subst hj0
    exact ⟨_, waitBelow48_of_lt env 0 _ _ (by simp only [getState, Nat.add_zero] at hd ⊢; omega)⟩
  | succ fuel ih =>
    intro j w hq hd hj
    by_cases h : 48 ≤ w.queued - env.drain w.ticks
    · have hstep := waitBelow48_step env fuel _ (getState env w).2 h
      simp only [getState] at hstep ⊢
      rw [hstep]
      cases j with
      | zero => simp only [Nat.add_zero] at hd; omega
      | succ j1 =>
        have := ih j1 (sleepMs (getState env w).2 2)
          (by simp only [sleepMs, getState]; omega)
          (by simp only [sleepMs, getState]; rw [Nat.add_assoc, Nat.add_comm 1 j1]; exact hd)
          (by omega)
        simpa only [getState] using this
    · exact ⟨_, waitBelow48_of_lt env _ _ _ (by simp only [getState]; omega)⟩

theorem wait_ok_of_fair (env : Env) (F fuel : Nat) (w : World) (hfair : Fair env F)
    (hF : F ≤ fuel) (hq : w.queued ≤ 48) :
    ∃ w1, waitBelow48 env fuel (getState env w).1 (getState env w).2 = Res.ok () w1 := by
  obtain ⟨j, hj, hd⟩ := hfair w.ticks
  exact wait_ok_of_drain env fuel j w hq hd (by omega)

/-! ## The scratch buffer -/

theorem resize_length (v : List Byte) (n : Nat) : (resize v n).length = n := by
  simp only [resize, List.length_append, List.length_take, List.length_replicate]
  omega

theorem writeAt0_length (buf data : List Byte) : (writeAt0 buf data).length = buf.length := by
  simp only [writeAt0, List.length_take, List.length_append, List.length_drop]
  omega

theorem wrapInt32_le {z : ℤ} (h : 0 ≤ z) : wrapInt32 z ≤ z := by
  unfold wrapInt32
  omega

theorem wrapInt32_of_range {z : ℤ} (h0 : -2147483648 ≤ z) (h1 : z < 2147483648) :
    wrapInt32 z = z := by
  unfold wrapInt32
  omega

theorem growScratch_ge (scratch : List Byte) (maxB : ℤ) :
    maxB ≤ ((growScratch scratch maxB).length : ℤ) := by
  unfold growScratch
  split_ifs with h
  · rw [resize_length]
    exact Int.self_le_toNat maxB
  · have := wrapInt32_le (Int.natCast_nonneg scratch.length)
    omega

theorem growScratch_length (scratch : List Byte) (maxB : ℤ)
    (h : (scratch.length : ℤ) < 2147483648) :
    ((growScratch scratch maxB).length : ℤ) = max (scratch.length : ℤ) maxB := by
  have hw := wrapInt32_of_range (z := scratch.length) (by omega) h
  unfold growScratch
  rw [hw]
  split_ifs with h1
  · rw [resize_length, max_eq_right h1.le]
    omega
  · rw [max_eq_left (not_lt.mp h1)]

/-! ## One call of `queueAudioFrame` -/

theorem queueAudioFrame_post (env : Env) (fuel : Nat) (au : AudioState) (fA : AFrame)
    (w : World) : QueuePost au fA w (queueAudioFrame env fuel au fA w) := by
  by_cases h1 : wrapInt32 au.scratch.length < fA.maxB ∧ fA.maxB < 0
  · simp only [queueAudioFrame, if_pos h1]
    exact Or.inl ⟨rfl, h1.1, h1.2⟩
  · by_cases h2 : fA.outS ≤ 0
    · simp only [queueAudioFrame, if_neg h1, if_pos h2]
      exact ⟨rfl, fun _ => rfl, fun h => absurd h (not_lt.mpr h2)⟩
    · have hp := poll_wait_post env fuel w
      simp only [queueAudioFrame, if_neg h1, if_neg h2]
      revert hp
      generalize waitBelow48 env fuel (getState env w).1 (getState env w).2 = r
      intro hp
      cases r with
      | stuck w2 =>
        obtain ⟨evs, e1, e2, e3, e4⟩ := hp
        exact ⟨not_le.mp h2, evs, e1, e2, e3, e4⟩
      | fault w2 => exact absurd hp id
      | ok u w2 =>
        obtain ⟨evs, q, e1, e2, e3, e4, e5, e6⟩ := hp
        by_cases h3 : outBytes fA.outS < 0 ∨
            ((writeAt0 (growScratch au.scratch fA.maxB) fA.pcm).length : ℤ) < outBytes fA.outS
        · simp only [if_pos h3]
          exact Or.inr ⟨not_le.mp h2, h3, evs, q, e1, e2, e3, e4, e5, e6⟩
        · simp only [if_neg h3]
          refine ⟨rfl, fun h => absurd h h2, fun _ => ⟨evs, q, ?_, e2, e3, ?_, e5, ?_, ?_, ?_⟩⟩
          · simp [submitSourceBuffer, newBlock, e1, e6]
          · simp only [submitSourceBuffer, newBlock, e4]
            omega
          · simp [submitSourceBuffer, newBlock, e6]
          · exact not_lt.mp (not_or.mp h3).1
          · exact not_lt.mp (not_or.mp h3).2

/-! ## Guarded submissions -/

theorem submitsGuarded_append (xs ys : List Event) : ∀ s : Option Nat,
    submitsGuarded s (xs ++ ys) = (submitsGuarded s xs && submitsGuarded (lastPoll s xs) ys) := by
  induction xs with
  | nil => intro s; simp [submitsGuarded, lastPoll]
  | cons e es ih =>
    intro s
    cases e <;> simp [submitsGuarded, lastPoll, ih, Bool.and_assoc]

theorem submitsGuarded_wait {b : Nat} {evs : List Event} (h : WaitEvents b evs) :
    ∀ s : Option Nat, submitsGuarded s evs = true := by
  induction evs with
  | nil => intro s; rfl
  | cons e es ih =>
    intro s
    have hes : WaitEvents b es := fun x hx => h x (List.mem_cons_of_mem _ hx)
    rcases h e (List.mem_cons_self _ _) with he | ⟨n, _, _, he⟩
    · subst he
      simpa [submitsGuarded] using ih hes s
    · subst he
      simpa [submitsGuarded] using ih hes (some n)

theorem pending_wait {b : Nat} {evs : List Event} (h : WaitEvents b evs) (hb : b ≤ 48) :
    ∀ e ∈ evs, ∀ n, e.pending = some n → n ≤ 48 := by
  intro e he n hn
  rcases h e he with h1 | ⟨m, _, h2, h3⟩
  · subst h1
    simp [Event.pending] at hn
  · subst h3
    simp only [Event.pending, Option.some.injEq] at hn
    omega

/-- The actions one call of `queueAudioFrame` adds, whatever its outcome: every submission is
guarded by a poll below 48 and no revealed count exceeds 48. -/
theorem queueAudioFrame_events (env : Env) (fuel : Nat) (au : AudioState) (fA : AFrame)
    (w : World) (hq : w.queued ≤ 48) :
    ∃ evs, (queueAudioFrame env fuel au fA w).world.trace = w.trace ++ evs ∧
      (∀ s, submitsGuarded s evs = true) ∧
      (∀ e ∈ evs, ∀ n, e.pending = some n → n ≤ 48) ∧
      (queueAudioFrame env fuel au fA w).world.queued ≤ 48 := by
  have hp := queueAudioFrame_post env fuel au fA w
  revert hp
  generalize queueAudioFrame env fuel au fA w = r
  intro hp
  cases r with
  | ok au1 w1 =>
    obtain ⟨_, h0, h1⟩ := hp
    by_cases hs : fA.outS ≤ 0
    · rw [Res.world, h0 hs]
      exact ⟨[], by simp, fun _ => rfl, by simp, hq⟩
    · obtain ⟨evs, q, e1, e2, e3, e4, e5, _⟩ := h1 (not_le.mp hs)
      refine ⟨_, e1, ?_, ?_, by simp only [Res.world]; omega⟩
      · intro s
        rw [submitsGuarded_append, submitsGuarded_wait e2]
        simp [submitsGuarded, e3]
      · intro e he n hn
        rcases List.mem_append.mp he with he | he
        · exact pending_wait e2 hq e he n hn
        · simp only [List.mem_cons, List.mem_singleton, List.not_mem_nil, or_false] at he
          rcases he with he | he | he
          · subst he
            simp only [Event.pending, Option.some.injEq] at hn
            omega
          · subst he
            simp [Event.pending] at hn
          · subst he
            simp only [Event.pending, Option.some.injEq] at hn
            omega
  | stuck w1 =>
    obtain ⟨_, evs, e1, e2, e3, _⟩ := hp
    exact ⟨evs, e1, submitsGuarded_wait e2, pending_wait e2 hq, by simp only [Res.world]; omega⟩
  | fault w1 =>
    rcases hp with ⟨h0, _⟩ | ⟨_, _, evs, q, e1, e2, e3, e4, e5, _⟩
    · rw [Res.world, h0]
      exact ⟨[], by simp, fun _ => rfl, by simp, hq⟩
    · refine ⟨_, e1, ?_, ?_, by simp only [Res.world]; omega⟩
      · intro s
        rw [submitsGuarded_append, submitsGuarded_wait e2]
        simp [submitsGuarded]
      · intro e he n hn
        rcases List.mem_append.mp he with he | he
        · exact pending_wait e2 hq e he n hn
        · simp only [List.mem_singleton] at he
          subst he
          simp only [Event.pending, Option.some.injEq] at hn
          omega

theorem queueAudioFrames_events (env : Env) (fuel : Nat) :
    ∀ (frames : List AFrame) (au : AudioState) (w : World), w.queued ≤ 48 →
    ∃ evs, (queueAudioFrames env fuel au frames w).world.trace = w.trace ++ evs ∧
      (∀ s, submitsGuarded s evs = true) ∧
      (∀ e ∈ evs, ∀ n, e.pending = some n → n ≤ 48) ∧
      (queueAudioFrames env fuel au frames w).world.queued ≤ 48 := by
  intro frames
  induction frames with
  | nil =>
    intro au w hq
    exact ⟨[], by simp [queueAudioFrames, Res.world], fun _ => rfl, by simp, hq⟩
  | cons fA rest ih =>
    intro au w hq
    obtain ⟨evs, e1, e2, e3, e4⟩ := queueAudioFrame_events env fuel au fA w hq
    simp only [queueAudioFrames]
    revert e1 e4
    generalize queueAudioFrame env fuel au fA w = r
    intro e1 e4
    cases r with
    | ok au1 w1 =>
      simp only [Res.world] at e1 e4
      obtain ⟨evs2, g1, g2, g3, g4⟩ := ih au1 w1 e4
      refine ⟨evs ++ evs2, by rw [g1, e1, List.append_assoc], ?_, ?_, g4⟩
      · intro s
        rw [submitsGuarded_append, e2, g2]
        rfl
      · intro e he n hn
        rcases List.mem_append.mp he with he | he
        · exact e3 e he n hn
        · exact g3 e he n hn
    | stuck w1 => exact ⟨evs, e1, e2, e3, e4⟩
    | fault w1 => exact ⟨evs, e1, e2, e3, e4⟩

/-! ## Outcomes of `queueAudioFrame` -/

theorem outBytes_of_contract {fA : AFrame} (h0 : 0 < fA.outS) (hc : Contract fA) :
    outBytes fA.outS = fA.outS * 2 * 2 ∧ 0 < outBytes fA.outS ∧ outBytes fA.outS ≤ fA.maxB := by
  obtain ⟨h1, h2, h3⟩ := hc
  have : outBytes fA.outS = fA.outS * 2 * 2 := by
    unfold outBytes
    exact wrapInt32_of_range (by omega) (by omega)
  rw [this]
  omega

theorem queueAudioFrame_not_stuck (env : Env) (F fuel : Nat) (au : AudioState) (fA : AFrame)
    (w : World) (hfair : Fair env F) (hF : F ≤ fuel) (hq : w.queued ≤ 48) :
    ∀ w1, queueAudioFrame env fuel au fA w ≠ Res.stuck w1 := by
  intro w1
  obtain ⟨w2, hw⟩ := wait_ok_of_fair env F fuel w hfair hF hq
  simp only [queueAudioFrame, hw]
  split_ifs <;> simp

theorem queueAudioFrame_not_fault (env : Env) (fuel : Nat) (au : AudioState) (fA : AFrame)
    (w : World) (hres : (au.scratch.length : ℤ) < 2147483648 ∨ 0 < fA.outS)
    (hc : 0 < fA.outS → Contract fA) :
    ∀ w1, queueAudioFrame env fuel au fA w ≠ Res.fault w1 := by
  intro w1 h
  have hp := queueAudioFrame_post env fuel au fA w
  rw [h] at hp
  rcases hp with ⟨_, h1, h2⟩ | ⟨h0, h1, _⟩
  · rcases hres with hl | h0
    · have := wrapInt32_of_range (z := au.scratch.length) (by omega) hl
      omega
    · obtain ⟨c1, c2, _⟩ := hc h0
      omega
  · have hb := outBytes_of_contract h0 (hc h0)
    have hg := growScratch_ge au.scratch fA.maxB
    rw [writeAt0_length] at h1
    omega

theorem queueAudioFrame_ok (env : Env) (F fuel : Nat) (au : AudioState) (fA : AFrame)
    (w : World) (hfair : Fair env F) (hF : F ≤ fuel) (hq : w.queued ≤ 48)
    (hres : (au.scratch.length : ℤ) < 2147483648 ∨ 0 < fA.outS)
    (hc : 0 < fA.outS → Contract fA) :
    ∃ au1 w1, queueAudioFrame env fuel au fA w = Res.ok au1 w1 := by
  have h1 := queueAudioFrame_not_stuck env F fuel au fA w hfair hF hq
  have h2 := queueAudioFrame_not_fault env fuel au fA w hres hc
  revert h1 h2
  generalize queueAudioFrame env fuel au fA w = r
  intro h1 h2
  cases r with
  | ok au1 w1 => exact ⟨au1, w1, rfl⟩
  | stuck w1 => exact absurd rfl (h1 w1)
  | fault w1 => exact absurd rfl (h2 w1)

theorem submitted_append (xs ys : List Event) :
    submitted (xs ++ ys) = submitted xs ++ submitted ys := by
  induction xs with
  | nil => rfl
  | cons e es ih => cases e <;> simp [submitted, ih]

theorem submitted_wait {b : Nat} {evs : List Event} (h : WaitEvents b evs) :
    submitted evs = [] := by
  induction evs with
  | nil => rfl
  | cons e es ih =>
    have hes : WaitEvents b es := fun x hx => h x (List.mem_cons_of_mem _ hx)
    rcases h e (List.mem_cons_self _ _) with he | ⟨n, _, _, he⟩ <;> subst he <;>
      simpa [submitted] using ih hes

/-! ## C8: drop or submit -/

/-- C8. For every decoded audio frame: if `swr_convert` returns `outS <= 0`, the call leaves the
outside world untouched (no poll, no sleep, no block, no buffer). If `outS > 0` and `outS * 2 * 2`
does not overflow `int`, then whenever the call returns it has, after waiting, polled a count
below 48, allocated exactly one block holding exactly the first `4 * outS` bytes of the scratch
buffer, and submitted exactly one buffer, whose `AudioBytes` is `4 * outS` and whose data pointer
and completion context are both that block. If moreover the libraries keep their contract
(`outS <= maxS`, `4 * maxS <= maxB`, `maxB` an `int`), the call never runs into undefined
behaviour, and it does return when the device keeps draining. -/
theorem drop_or_submit (env : Env) (fuel : Nat) (au : AudioState) (fA : AFrame) (w : World) :
    (fA.outS ≤ 0 → (queueAudioFrame env fuel au fA w).world = w) ∧
    (0 < fA.outS → 4 * fA.outS < 2147483648 →
      ∀ au1 w1, queueAudioFrame env fuel au fA w = Res.ok au1 w1 →
        ∃ evs q data,
          w1.trace = w.trace ++ (evs ++ [Event.getState q, Event.newBlock w.heap.length data,
            Event.submit (XBuffer.mk (4 * fA.outS) w.heap.length w.heap.length) w1.queued]) ∧
          WaitEvents w.queued evs ∧ q < 48 ∧
          data = au1.scratch.take (4 * fA.outS).toNat ∧
          (data.length : ℤ) = 4 * fA.outS ∧
          w1.heap = w.heap ++ [data] ∧
          submitted w1.trace =
            submitted w.trace ++ [XBuffer.mk (4 * fA.outS) w.heap.length w.heap.length]) ∧
    (0 < fA.outS → Contract fA →
      (∀ w1, queueAudioFrame env fuel au fA w ≠ Res.fault w1) ∧
      (∀ F, Fair env F → F ≤ fuel → w.queued ≤ 48 →
        ∃ au1 w1, queueAudioFrame env fuel au fA w = Res.ok au1 w1)) := by
  refine ⟨?_, ?_, ?_⟩
  · intro h
    have hp := queueAudioFrame_post env fuel au fA w
    revert hp
    generalize queueAudioFrame env fuel au fA w = r
    intro hp
    cases r with
    | ok au1 w1 => exact hp.2.1 h
    | stuck w1 => exact absurd hp.1 (not_lt.mpr h)
    | fault w1 =>
      rcases hp with ⟨h0, _⟩ | ⟨h0, _⟩
      · exact h0
      · exact absurd h0 (not_lt.mpr h)
  · intro h0 hov au1 w1 h
    have h4 : outBytes fA.outS = 4 * fA.outS := by
      unfold outBytes
      rw [wrapInt32_of_range (by omega) (by omega)]
      ring
    have hp := queueAudioFrame_post env fuel au fA w
    rw [h] at hp
    obtain ⟨_, _, hp⟩ := hp
    obtain ⟨evs, q, e1, e2, e3, _, _, e6, e7, e8⟩ := hp h0
    rw [h4] at e1 e6 e7 e8
    refine ⟨evs, q, _, e1, e2, e3, rfl, ?_, e6, ?_⟩
    · rw [List.length_take]
      omega
    · rw [e1, submitted_append, submitted_append, submitted_wait e2]
      simp [submitted]
  · intro h0 hc
    exact ⟨queueAudioFrame_not_fault env fuel au fA w (Or.inr h0) (fun _ => hc),
      fun F hfair hF hq =>
        queueAudioFrame_ok env F fuel au fA w hfair hF hq (Or.inr h0) (fun _ => hc)⟩

/-! ## C9: growth of the scratch buffer -/

theorem queueAudioFrame_scratch (env : Env) (fuel : Nat) (au au1 : AudioState) (fA : AFrame)
    (w w1 : World) (h : queueAudioFrame env fuel au fA w = Res.ok au1 w1)
    (hlen : (au.scratch.length : ℤ) < 2147483648) :
    (au1.scratch.length : ℤ) = max (au.scratch.length : ℤ) fA.maxB := by
  have hp := queueAudioFrame_post env fuel au fA w
  rw [h] at hp
  rw [hp.1]
  simp only [writeAt0_length]
  exact growScratch_length au.scratch fA.maxB hlen

theorem queueAudioFrames_scratch (env : Env) (fuel : Nat) :
    ∀ (frames : List AFrame) (au au1 : AudioState) (w w1 : World),
    queueAudioFrames env fuel au frames w = Res.ok au1 w1 →
    (au.scratch.length : ℤ) < 2147483648 → (∀ f ∈ frames, f.maxB < 2147483648) →
    (au1.scratch.length : ℤ) =
      (frames.map fun f => f.maxB).foldl max (au.scratch.length : ℤ) := by
  intro frames
  induction frames with
  | nil =>
    intro au au1 w w1 h _ _
    simp only [queueAudioFrames, Res.ok.injEq] at h
    simp [h.1]
  | cons fA rest ih =>
    intro au au1 w w1 h hlen hint
    simp only [queueAudioFrames] at h
    cases hr : queueAudioFrame env fuel au fA w with
    | ok au2 w2 =>
      rw [hr] at h
      have h2 := queueAudioFrame_scratch env fuel au au2 fA w w2 hr hlen
      have hB : fA.maxB < 2147483648 := hint fA (List.mem_cons_self _ _)
      have := ih au2 au1 w2 w1 h (by rw [h2]; exact max_lt hlen hB)
        (fun f hf => hint f (List.mem_cons_of_mem _ hf))
      rw [this, h2]
      simp
    | stuck w2 => rw [hr] at h; simp at h
    | fault w2 => rw [hr] at h; simp at h

theorem queueAudioFrames_ok (env : Env) (F fuel : Nat) (hfair : Fair env F) (hF : F ≤ fuel) :
    ∀ (frames : List AFrame) (au : AudioState) (w : World), w.queued ≤ 48 →
    (au.scratch.length : ℤ) < 2147483648 →
    (∀ f ∈ frames, f.maxB < 2147483648 ∧ (0 < f.outS → Contract f)) →
    ∃ au1 w1, queueAudioFrames env fuel au frames w = Res.ok au1 w1 ∧ w1.queued ≤ 48 ∧
      (au1.scratch.length : ℤ) < 2147483648 := by
  intro frames
  induction frames with
  | nil => intro au w hq hlen _; exact ⟨au, w, rfl, hq, hlen⟩
  | cons fA rest ih =>
    intro au w hq hlen hc
    obtain ⟨hB, hcA⟩ := hc fA (List.mem_cons_self _ _)
    obtain ⟨au2, w2, hr⟩ := queueAudioFrame_ok env F fuel au fA w hfair hF hq (Or.inl hlen) hcA
    have hq2 := (queueAudioFrame_events env fuel au fA w hq).choose_spec.2.2.2
    rw [hr] at hq2
    have h2 := queueAudioFrame_scratch env fuel au au2 fA w w2 hr hlen
    obtain ⟨au1, w1, g1, g2, g3⟩ := ih au2 w2 hq2 (by rw [h2]; exact max_lt hlen hB)
      (fun f hf => hc f (List.mem_cons_of_mem _ hf))
    exact ⟨au1, w1, by simp only [queueAudioFrames, hr]; exact g1, g2, g3⟩

/-- C9. For every sequence of `queueAudioFrame` calls that starts from an empty scratch buffer,
with every `maxB` an `int`: whenever the calls have returned, the scratch size is the maximum of 0
and the `maxB` of all frames so far; a single call never shrinks the buffer and leaves it at
least as large as its own `maxB`; and the calls do return when the libraries keep their contract
and the device keeps draining. -/
theorem scratch_growth (env : Env) (fuel : Nat) (frames : List AFrame) (au : AudioState)
    (w : World) (hempty : au.scratch = []) (hint : ∀ f ∈ frames, f.maxB < 2147483648) :
    (∀ au1 w1, queueAudioFrames env fuel au frames w = Res.ok au1 w1 →
      (au1.scratch.length : ℤ) = (frames.map fun f => f.maxB).foldl max 0 ∧
      ∀ (fA : AFrame) (au2 : AudioState) (w2 : World), fA.maxB < 2147483648 →
        queueAudioFrame env fuel au1 fA w1 = Res.ok au2 w2 →
        au1.scratch.length ≤ au2.scratch.length ∧ fA.maxB ≤ (au2.scratch.length : ℤ) ∧
        (au2.scratch.length : ℤ) = ((frames ++ [fA]).map fun f => f.maxB).foldl max 0) ∧
    (∀ F, Fair env F → F ≤ fuel → w.queued ≤ 48 → (∀ f ∈ frames, 0 < f.outS → Contract f) →
      ∃ au1 w1, queueAudioFrames env fuel au frames w = Res.ok au1 w1) := by
  have hlen : (au.scratch.length : ℤ) < 2147483648 := by simp [hempty]
  constructor
  · intro au1 w1 h
    have h1 := queueAudioFrames_scratch env fuel frames au au1 w w1 h hlen hint
    simp only [hempty, List.length_nil, Nat.cast_zero] at h1
    refine ⟨h1, ?_⟩
    intro fA au2 w2 hB h2
    have hl1 : (au1.scratch.length : ℤ) < 2147483648 := by
      rw [h1]
      have : ∀ (l : List ℤ) (a : ℤ), a < 2147483648 → (∀ x ∈ l, x < 2147483648) →
          l.foldl max a < 2147483648 := by
        intro l
        induction l with
        | nil => intro a ha _; simpa using ha
        | cons x xs ihx =>
          intro a ha hx
          simp only [List.foldl_cons]
          exact ihx _ (max_lt ha (hx x (List.mem_cons_self _ _)))
            (fun y hy => hx y (List.mem_cons_of_mem _ hy))
      exact this _ 0 (by norm_num) (by
        intro x hx
        obtain ⟨f, hf, rfl⟩ := List.mem_map.mp hx
        exact hint f hf)
    have h3 := queueAudioFrame_scratch env fuel au1 au2 fA w1 w2 h2 hl1
    refine ⟨?_, ?_, ?_⟩
    · have := le_max_left (au1.scratch.length : ℤ) fA.maxB
      omega
    · rw [h3]; exact le_max_right _ _
    · rw [h3, h1]; simp [List.foldl_append]
  · intro F hfair hF hq hc
    obtain ⟨au1, w1, g, _⟩ := queueAudioFrames_ok env F fuel hfair hF frames au w hq hlen
      (fun f hf => ⟨hint f hf, hc f hf⟩)
    exact ⟨au1, w1, g⟩

/-! ## C4: back-pressure -/

theorem queueAudioFrame_wait_step (env : Env) (fuel : Nat) (au : AudioState) (fA : AFrame)
    (w : World) (h0 : 0 < fA.outS)
    (h1 : ¬ (wrapInt32 au.scratch.length < fA.maxB ∧ fA.maxB < 0))
    (h : 48 ≤ (getState env w).1) :
    queueAudioFrame env (fuel + 1) au fA w =
      queueAudioFrame env fuel au fA (sleepMs (getState env w).2 2) := by
  simp only [queueAudioFrame, if_neg h1, if_neg (not_le.mpr h0)]
  rw [waitBelow48_step env fuel _ _ h]

theorem queueAudioFrame_room (env : Env) (fuel : Nat) (au : AudioState) (fA : AFrame)
    (w : World) (h0 : 0 < fA.outS) (hc : Contract fA) (h : (getState env w).1 < 48) :
    queueAudioFrame env fuel au fA w =
      Res.ok { au with scratch := writeAt0 (growScratch au.scratch fA.maxB) fA.pcm }
        (submitSourceBuffer env
          (newBlock (getState env w).2
            ((writeAt0 (growScratch au.scratch fA.maxB) fA.pcm).take (outBytes fA.outS).toNat)).2
          { AudioBytes := outBytes fA.outS, pAudioData := (getState env w).2.heap.length,
            pContext := (getState env w).2.heap.length }) := by
  have hb := outBytes_of_contract h0 hc
  have hg := growScratch_ge au.scratch fA.maxB
  have h1 : ¬ (wrapInt32 au.scratch.length < fA.maxB ∧ fA.maxB < 0) := by
    obtain ⟨c1, c2, _⟩ := hc
    intro hf
    omega
  have h3 : ¬ (outBytes fA.outS < 0 ∨
      ((writeAt0 (growScratch au.scratch fA.maxB) fA.pcm).length : ℤ) < outBytes fA.outS) := by
    rw [writeAt0_length]
    intro hf
    omega
  simp only [queueAudioFrame, if_neg h1, if_neg (not_le.mpr h0)]
  rw [waitBelow48_of_lt env fuel _ _ h]
  simp only [if_neg h3, newBlock]

theorem queueAudioFrame_submitted (env : Env) (fuel : Nat) (au au1 : AudioState) (fA : AFrame)
    (w w1 : World) (h : queueAudioFrame env fuel au fA w = Res.ok au1 w1) :
    (submitted w1.trace).map (fun xb => xb.AudioBytes) =
      (submitted w.trace).map (fun xb => xb.AudioBytes) ++
        (if 0 < fA.outS then [outBytes fA.outS] else []) := by
  have hp := queueAudioFrame_post env fuel au fA w
  rw [h] at hp
  obtain ⟨_, h0, h1⟩ := hp
  by_cases hs : 0 < fA.outS
  · obtain ⟨evs, q, e1, e2, _⟩ := h1 hs
    rw [if_pos hs, e1, submitted_append, submitted_append, submitted_wait e2]
    simp [submitted]
  · rw [if_neg hs, h0 (not_lt.mp hs)]
    simp

theorem queueAudioFrames_submitted (env : Env) (fuel : Nat) :
    ∀ (frames : List AFrame) (au au1 : AudioState) (w w1 : World),
    queueAudioFrames env fuel au frames w = Res.ok au1 w1 →
    (submitted w1.trace).map (fun xb => xb.AudioBytes) =
      (submitted w.trace).map (fun xb => xb.AudioBytes) ++
        (frames.filter fun f => decide (0 < f.outS)).map fun f => outBytes f.outS := by
  intro frames
  induction frames with
  | nil =>
    intro au au1 w w1 h
    simp only [queueAudioFrames, Res.ok.injEq] at h
    simp [h.2]
  | cons fA rest ih =>
    intro au au1 w w1 h
    simp only [queueAudioFrames] at h
    cases hr : queueAudioFrame env fuel au fA w with
    | ok au2 w2 =>
      rw [hr] at h
      rw [ih au2 au1 w2 w1 h, queueAudioFrame_submitted env fuel au au2 fA w w2 hr]
      by_cases hs : 0 < fA.outS <;> simp [List.filter_cons, hs]
    | stuck w2 => rw [hr] at h; simp at h
    | fault w2 => rw [hr] at h; simp at h

/-- C4. Against any audio device whose pending count moves only by +1 per submission and by
draining, started with at most 48 buffers pending. Over any sequence of `queueAudioFrame` calls,
whatever the outcome, every `SubmitSourceBuffer` follows a poll of its own that returned less
than 48, and no count ever revealed by a poll or reached by a submission exceeds 48. A call for
a frame with `outS > 0` whose poll returns 48 or more does nothing but sleep 2 ms and poll again
(it continues as the same call started after that poll and sleep); a call whose poll returns less
than 48 allocates and submits at once; a call still waiting has done nothing but such polls and
sleeps. No frame is dropped: when the calls have returned, exactly the frames with `outS > 0` have
been submitted, in order, each once with its `outB` bytes; and the calls do return when the
device keeps draining. -/
theorem backpressure_bound (env : Env) (fuel : Nat) (au : AudioState) (frames : List AFrame)
    (w : World) (hq : w.queued ≤ 48) :
    (∃ evs, (queueAudioFrames env fuel au frames w).world.trace = w.trace ++ evs ∧
      (∀ s, submitsGuarded s evs = true) ∧
      (∀ e ∈ evs, ∀ n, e.pending = some n → n ≤ 48) ∧
      (queueAudioFrames env fuel au frames w).world.queued ≤ 48) ∧
    (∀ (k q : Nat) (w1 : World), 48 ≤ q →
      waitBelow48 env (k + 1) q w1 =
        waitBelow48 env k (getState env (sleepMs w1 2)).1 (getState env (sleepMs w1 2)).2) ∧
    (∀ (k q : Nat) (w1 : World), q < 48 → waitBelow48 env k q w1 = Res.ok () w1) ∧
    (∀ (fA : AFrame) (w1 : World), queueAudioFrame env fuel au fA w = Res.stuck w1 →
      0 < fA.outS ∧ w1.heap = w.heap ∧
      ∃ evs, w1.trace = w.trace ++ evs ∧
        ∀ e ∈ evs, e = Event.sleepMs 2 ∨ ∃ n, 48 ≤ n ∧ n ≤ 48 ∧ e = Event.getState n) ∧
    (∀ (fA : AFrame) (k : Nat) (au1 : AudioState) (w1 : World), 0 < fA.outS →
      ¬ (wrapInt32 au1.scratch.length < fA.maxB ∧ fA.maxB < 0) → 48 ≤ (getState env w1).1 →
      queueAudioFrame env (k + 1) au1 fA w1 =
        queueAudioFrame env k au1 fA (sleepMs (getState env w1).2 2)) ∧
    (∀ (fA : AFrame) (k : Nat) (au1 : AudioState) (w1 : World), 0 < fA.outS → Contract fA →
      (getState env w1).1 < 48 →
      queueAudioFrame env k au1 fA w1 =
        Res.ok { au1 with scratch := writeAt0 (growScratch au1.scratch fA.maxB) fA.pcm }
          (submitSourceBuffer env
            (newBlock (getState env w1).2
              ((writeAt0 (growScratch au1.scratch fA.maxB) fA.pcm).take
                (outBytes fA.outS).toNat)).2
            { AudioBytes := outBytes fA.outS, pAudioData := (getState env w1).2.heap.length,
              pContext := (getState env w1).2.heap.length })) ∧
    (∀ au1 w1, queueAudioFrames env fuel au frames w = Res.ok au1 w1 →
      (submitted w1.trace).map (fun xb => xb.AudioBytes) =
        (submitted w.trace).map (fun xb => xb.AudioBytes) ++
          (frames.filter fun f => decide (0 < f.outS)).map fun f => outBytes f.outS) ∧
    (∀ F, Fair env F → F ≤ fuel → (au.scratch.length : ℤ) < 2147483648 →
      (∀ f ∈ frames, f.maxB < 2147483648 ∧ (0 < f.outS → Contract f)) →
      ∃ au1 w1, queueAudioFrames env fuel au frames w = Res.ok au1 w1) := by
  refine ⟨queueAudioFrames_events env fuel frames au w hq,
    fun k q w1 h => waitBelow48_step env k q w1 h,
    fun k q w1 h => waitBelow48_of_lt env k q w1 h, ?_,
    fun fA k au1 w1 h0 h1 h => queueAudioFrame_wait_step env k au1 fA w1 h0 h1 h,
    fun fA k au1 w1 h0 hc h => queueAudioFrame_room env k au1 fA w1 h0 hc h,
    fun au1 w1 h => queueAudioFrames_submitted env fuel frames au au1 w w1 h, ?_⟩
  · intro fA w1 h
    have hp := queueAudioFrame_post env fuel au fA w
    rw [h] at hp
    obtain ⟨h0, evs, e1, e2, _, e4⟩ := hp
    exact ⟨h0, e4, evs, e1, e2.mono hq⟩
  · intro F hfair hF hlen hc
    obtain ⟨au1, w1, g, _⟩ := queueAudioFrames_ok env F fuel hfair hF frames au w hq hlen hc
    exact ⟨au1, w1, g⟩

/-! ## C10: the copy stays inside the scratch buffer -/

/-- C10. Under the library preconditions `outS <= maxS` and `maxB >= 4 * maxS` (with `maxB` an
`int`), for every frame with `outS > 0` and every state of the scratch buffer: `outB` is computed
without overflow as `outS * 2 * 2`, it is positive, it is at most the size of the scratch buffer
the copy reads from, the call never runs into undefined behaviour, and the block it submits has
exactly `outB` bytes. -/
theorem copy_in_bounds (env : Env) (fuel : Nat) (au : AudioState) (fA : AFrame) (w : World)
    (h0 : 0 < fA.outS) (h1 : fA.outS ≤ fA.maxS) (h2 : 4 * fA.maxS ≤ fA.maxB)
    (h3 : fA.maxB < 2147483648) :
    outBytes fA.outS = fA.outS * 2 * 2 ∧ 0 < outBytes fA.outS ∧
    outBytes fA.outS ≤ ((writeAt0 (growScratch au.scratch fA.maxB) fA.pcm).length : ℤ) ∧
    (∀ w1, queueAudioFrame env fuel au fA w ≠ Res.fault w1) ∧
    (∀ au1 w1, queueAudioFrame env fuel au fA w = Res.ok au1 w1 →
      au1.scratch = writeAt0 (growScratch au.scratch fA.maxB) fA.pcm ∧
      outBytes fA.outS ≤ (au1.scratch.length : ℤ) ∧
      w1.heap = w.heap ++ [au1.scratch.take (outBytes fA.outS).toNat] ∧
      ((au1.scratch.take (outBytes fA.outS).toNat).length : ℤ) = outBytes fA.outS) := by
  have hc : Contract fA := ⟨h1, h2, h3⟩
  have hb := outBytes_of_contract h0 hc
  have hg := growScratch_ge au.scratch fA.maxB
  refine ⟨hb.1, hb.2.1, by rw [writeAt0_length]; omega,
    queueAudioFrame_not_fault env fuel au fA w (Or.inr h0) (fun _ => hc), ?_⟩
  intro au1 w1 h
  have hp := queueAudioFrame_post env fuel au fA w
  rw [h] at hp
  obtain ⟨hs, _, hp⟩ := hp
  obtain ⟨evs, q, _, _, _, _, _, e6, e7, e8⟩ := hp h0
  refine ⟨by rw [hs], e8, e6, ?_⟩
  rw [List.length_take]
  omega

/-! ## The function `main` -/

theorem initVideoStream_fst (o : VideoSetup) (vs : VideoState) (w : World) :
    (initVideoStream o vs w).1 = (o.decoderOpened && o.windowCreated) := by
  unfold initVideoStream
  cases o.decoderOpened <;> cases o.windowCreated <;> simp

theorem videoFrame_queued (env : Env) (tb : AVRational) (p : Pacer) (fV : VFrame) (w : World) :
    (videoFrame env tb p fV w).2.queued = w.queued := by
  have ha : (anchor env p (framePts tb fV) w).2.queued = w.queued := by
    unfold anchor
    split_ifs <;> simp [clockNow]
  unfold videoFrame presentVideoFrame
  simp only
  cases pacingSleep (frameLead env (anchor env p (framePts tb fV) w).1 (framePts tb fV)
    (anchor env p (framePts tb fV) w).2) <;> simp [World.emit, sleepMs, clockNow, ha]

theorem videoFrames_queued (env : Env) (tb : AVRational) : ∀ (frames : List VFrame) (p : Pacer)
    (w : World), (videoFrames env tb p frames w).2.queued = w.queued := by
  intro frames
  induction frames with
  | nil => intro p w; rfl
  | cons fV rest ih =>
    intro p w
    simp only [videoFrames]
    rw [ih, videoFrame_queued]

theorem mainLoop_ok_of_no_audio (env : Env) (fuel : Nat) (tb : AVRational) (vIdx aIdx : ℤ) :
    ∀ (packets : List Packet) (p : Pacer) (au : AudioState) (w : World),
    ∃ s w1, mainLoop env fuel tb vIdx aIdx false packets p au w = Res.ok s w1 := by
  intro packets
  induction packets with
  | nil => intro p au w; exact ⟨_, _, rfl⟩
  | cons pkt rest ih =>
    intro p au w
    unfold mainLoop
    split_ifs
    · exact ⟨_, _, rfl⟩
    · exact ih _ _ _
    · exact ih _ _ _
    · simp at *
    · simp at *
    · exact ih _ _ _

theorem mainLoop_ok (env : Env) (F fuel : Nat) (tb : AVRational) (vIdx aIdx : ℤ) (haveAudio : Bool)
    (hfair : Fair env F) (hF : F ≤ fuel) :
    ∀ (packets : List Packet) (p : Pacer) (au : AudioState) (w : World),
    w.queued ≤ 48 → (au.scratch.length : ℤ) < 2147483648 →
    (∀ pkt ∈ packets, ∀ f ∈ pkt.audio, f.maxB < 2147483648 ∧ (0 < f.outS → Contract f)) →
    ∃ s w1, mainLoop env fuel tb vIdx aIdx haveAudio packets p au w = Res.ok s w1 := by
  intro packets
  induction packets with
  | nil => intro p au w _ _ _; exact ⟨_, _, rfl⟩
  | cons pkt rest ih =>
    intro p au w hq hlen hc
    have hrest : ∀ pk ∈ rest, ∀ f ∈ pk.audio, f.maxB < 2147483648 ∧ (0 < f.outS → Contract f) :=
      fun pk hpk => hc pk (List.mem_cons_of_mem _ hpk)
    unfold mainLoop
    split_ifs
    · exact ⟨_, _, rfl⟩
    · exact ih _ _ _ (by rw [videoFrames_queued]; exact hq) hlen hrest
    · exact ih _ _ _ hq hlen hrest
    · obtain ⟨au1, w1, g1, g2, g3⟩ := queueAudioFrames_ok env F fuel hfair hF pkt.audio au w
        hq hlen (hc pkt (List.mem_cons_self _ _))
      rw [g1]
      exact ih _ _ _ g2 g3 hrest
    · exact ih _ _ _ hq hlen hrest
    · exact ih _ _ _ hq hlen hrest

theorem initAudio_cases (o : AudioSetup) (au : AudioState) (w : World) :
    (o.decoderOpened = false → ∃ au1 w1, initAudio o au w = Res.ok (false, au1) w1 ∧
      w1.queued = w.queued ∧ au1.scratch = au.scratch) ∧
    (o.decoderOpened = true → DeviceCreated o →
      ∃ au1 w1, initAudio o au w = Res.ok (true, au1) w1 ∧
        w1.queued = w.queued ∧ au1.scratch = au.scratch) ∧
    (o.decoderOpened = true → ¬ DeviceCreated o → ∃ w1, initAudio o au w = Res.fault w1) := by
  obtain ⟨d, x, m, r, sv⟩ := o
  cases d <;> cases x <;> cases m <;> cases sv <;>
    simp only [initAudio, DeviceCreated, World.emit] <;> simp <;>
    exact ⟨_, _, ⟨rfl, rfl⟩, rfl, rfl⟩

theorem initHaveAudio_not_stuck (inp : Input) (w w1 : World) :
    initHaveAudio inp w ≠ Res.stuck w1 := by
  obtain ⟨argc, openOk, vIdx, aIdx, video, ⟨d, x, m, r, sv⟩, tb, packets⟩ := inp
  unfold initHaveAudio
  split_ifs
  · cases d <;> cases x <;> cases m <;> cases sv <;> simp [initAudio]
  · simp

theorem main_exit (env : Env) (fuel : Nat) (inp : Input) (c : ℤ) (w : World)
    (h : main env fuel inp = Res.ok c w) :
    (c = 1 ∧ 2 ≤ inp.argc ∧ SetupFails inp) ∨ (c = 0 ∧ (inp.argc < 2 ∨ ¬ SetupFails inp)) := by
  unfold main at h
  simp only [initVideoStream_fst] at h
  split_ifs at h with h1 h2 h3 h4
  · simp only [Res.ok.injEq] at h
    exact Or.inr ⟨h.1.symm, Or.inl h1⟩
  · simp only [Res.ok.injEq] at h
    exact Or.inl ⟨h.1.symm, by omega, Or.inl (by simpa using h2)⟩
  · simp only [Res.ok.injEq] at h
    exact Or.inl ⟨h.1.symm, by omega, Or.inr (Or.inl h3)⟩
  · simp only [Res.ok.injEq] at h
    refine Or.inl ⟨h.1.symm, by omega, Or.inr (Or.inr ?_)⟩
    cases hd : inp.video.decoderOpened
    · exact Or.inl rfl
    · right
      simpa [hd] using h4
  · have hpass : ¬ SetupFails inp := by
      unfold SetupFails
      cases ho : inp.openOk <;> cases hd : inp.video.decoderOpened <;>
        cases hw : inp.video.windowCreated <;> simp_all
    split at h
    · simp at h
    · simp at h
    · split at h
      · simp at h
      · simp at h
      · simp only [Res.ok.injEq] at h
        exact Or.inr ⟨h.1.symm, Or.inr hpass⟩

theorem initVideoStream_queued (o : VideoSetup) (vs : VideoState) (w : World) :
    (initVideoStream o vs w).2.2.queued = w.queued := by
  unfold initVideoStream
  cases o.decoderOpened <;> cases o.windowCreated <;> simp [World.emit]

theorem initHaveAudio_ok (inp : Input) (w : World)
    (h : inp.aIdx < 0 ∨ inp.audio.decoderOpened = false ∨ DeviceCreated inp.audio) :
    ∃ b au1 w1, initHaveAudio inp w = Res.ok (b, au1) w1 ∧ w1.queued = w.queued ∧
      au1.scratch = [] ∧ (b = true → 0 ≤ inp.aIdx ∧ inp.audio.decoderOpened = true) := by
  unfold initHaveAudio
  by_cases ha : 0 ≤ inp.aIdx
  · rw [if_pos ha]
    obtain ⟨c1, c2, _⟩ := initAudio_cases inp.audio {} w
    cases hd : inp.audio.decoderOpened
    · obtain ⟨au1, w1, g1, g2, g3⟩ := c1 hd
      exact ⟨false, au1, w1, g1, g2, g3, fun hb => by simp at hb⟩
    · have hdev : DeviceCreated inp.audio := by
        rcases h with h | h | h
        · omega
        · rw [hd] at h; simp at h
        · exact h
      obtain ⟨au1, w1, g1, g2, g3⟩ := c2 hd hdev
      exact ⟨true, au1, w1, g1, g2, g3, fun _ => ⟨ha, rfl⟩⟩
  · rw [if_neg ha]
    exact ⟨false, _, w, rfl, rfl, rfl, fun hb => by simp at hb⟩

theorem main_usage (env : Env) (fuel : Nat) (inp : Input) (h : inp.argc < 2) :
    main env fuel inp = Res.ok 0 { trace := [Event.usage] } := by
  simp [main, h, World.emit]

theorem main_setup_fails (env : Env) (fuel : Nat) (inp : Input) (h : 2 ≤ inp.argc)
    (hf : SetupFails inp) : ∃ w, main env fuel inp = Res.ok 1 w := by
  unfold main
  simp only [initVideoStream_fst]
  rw [if_neg (by omega)]
  split_ifs with h2 h3 h4
  · exact ⟨_, rfl⟩
  · exact ⟨_, rfl⟩
  · exact ⟨_, rfl⟩
  · exfalso
    unfold SetupFails at hf
    cases ho : inp.openOk <;> cases hd : inp.video.decoderOpened <;>
      cases hw : inp.video.windowCreated <;> simp_all

theorem main_returns (env : Env) (F fuel : Nat) (inp : Input) (hargc : 2 ≤ inp.argc)
    (hpass : ¬ SetupFails inp)
    (haudio : inp.aIdx < 0 ∨ inp.audio.decoderOpened = false ∨
      (DeviceCreated inp.audio ∧ Fair env F ∧ F ≤ fuel ∧ AudioWellBehaved inp)) :
    ∃ w, main env fuel inp = Res.ok 0 w := by
  unfold SetupFails at hpass
  have ho : inp.openOk = true := by
    cases h : inp.openOk
    · exact absurd (Or.inl h) hpass
    · rfl
  have hv : ¬ inp.vIdx < 0 := fun h => hpass (Or.inr (Or.inl h))
  have hd : inp.video.decoderOpened = true := by
    cases h : inp.video.decoderOpened
    · exact absurd (Or.inr (Or.inr (Or.inl h))) hpass
    · rfl
  have hw : inp.video.windowCreated = true := by
    cases h : inp.video.windowCreated
    · exact absurd (Or.inr (Or.inr (Or.inr h))) hpass
    · rfl
  have hq0 : ∀ w0 : World, w0.queued = 0 →
      ∃ b au1 w1, initHaveAudio inp (initVideoStream inp.video {} w0).2.2 = Res.ok (b, au1) w1 ∧
        w1.queued = 0 ∧ au1.scratch = [] ∧
        (b = true → 0 ≤ inp.aIdx ∧ inp.audio.decoderOpened = true) := by
    intro w0 h0
    obtain ⟨b, au1, w1, g1, g2, g3, g4⟩ := initHaveAudio_ok inp (initVideoStream inp.video {} w0).2.2
      (by
        rcases haudio with h | h | h
        · exact Or.inl h
        · exact Or.inr (Or.inl h)
        · exact Or.inr (Or.inr h.1))
    exact ⟨b, au1, w1, g1, by rw [g2, initVideoStream_queued, h0], g3, g4⟩
  unfold main
  simp only [initVideoStream_fst, ho, hd, hw, if_neg (not_lt.mpr hargc), if_neg hv,
    Bool.not_true, Bool.and_self, Bool.false_eq_true, if_false]
  obtain ⟨b, au1, w1, g1, g2, g3, g4⟩ := hq0 ((((((({} : World).emit Event.networkInit).emit
    Event.openInput).emit Event.findStreamInfo).emit (Event.findBestStream true)).emit
    (Event.findBestStream false))) rfl
  rw [g1]
  simp only
  have hloop : ∃ s w2, mainLoop env fuel inp.tb inp.vIdx inp.aIdx b inp.packets
      { playStart := (clockNow env w1).1, firstPts := -1, quit := false } au1
      (clockNow env w1).2 = Res.ok s w2 := by
    cases b with
    | false => exact mainLoop_ok_of_no_audio env fuel inp.tb inp.vIdx inp.aIdx _ _ _ _
    | true =>
      obtain ⟨ha, hdec⟩ := g4 rfl
      rcases haudio with h | h | ⟨_, hfair, hF, hwb⟩
      · omega
      · rw [hdec] at h; simp at h
      · exact mainLoop_ok env F fuel inp.tb inp.vIdx inp.aIdx true hfair hF inp.packets _ au1 _
          (by simp only [clockNow]; omega) (by simp [g3]) hwb
  obtain ⟨s2, w2, hl⟩ := hloop
  rw [hl]
  exact ⟨_, rfl⟩

/-! ## Exit codes -/

/-- Exit codes of `main` on the runs that return: with no file argument it returns 0; when a
setup step fails (open, no video stream, video decoder, window) it returns 1; whenever it
returns, the code is 1 exactly when a setup step failed and 0 otherwise; once setup has passed
it does return 0 when there is no audio stream, when the audio decoder does not open, or when the
audio device is created, drains and the libraries keep their contract; and two runs that differ
only in the audio stream and both return, return the same code. -/
theorem exit_codes_when_returning (env : Env) (fuel : Nat) (inp : Input) :
    (inp.argc < 2 → main env fuel inp = Res.ok 0 { trace := [Event.usage] }) ∧
    (2 ≤ inp.argc → SetupFails inp → ∃ w, main env fuel inp = Res.ok 1 w) ∧
    (∀ c w, main env fuel inp = Res.ok c w →
      (c = 1 ∧ 2 ≤ inp.argc ∧ SetupFails inp) ∨
      (c = 0 ∧ (inp.argc < 2 ∨ ¬ SetupFails inp))) ∧
    (∀ F, 2 ≤ inp.argc → ¬ SetupFails inp →
      (inp.aIdx < 0 ∨ inp.audio.decoderOpened = false ∨
        (DeviceCreated inp.audio ∧ Fair env F ∧ F ≤ fuel ∧ AudioWellBehaved inp)) →
      ∃ w, main env fuel inp = Res.ok 0 w) ∧
    (∀ (aIdx : ℤ) (audio : AudioSetup) (env2 : Env) (fuel2 : Nat) (c c2 : ℤ) (w w2 : World),
      main env fuel inp = Res.ok c w →
      main env2 fuel2 { inp with aIdx := aIdx, audio := audio } = Res.ok c2 w2 → c = c2) := by
  refine ⟨main_usage env fuel inp, main_setup_fails env fuel inp, main_exit env fuel inp,
    fun F => main_returns env F fuel inp, ?_⟩
  intro aIdx audio env2 fuel2 c c2 w w2 h h2
  have e1 := main_exit env fuel inp c w h
  have e2 := main_exit env2 fuel2 _ c2 w2 h2
  simp only [SetupFails] at e1 e2
  rcases e1 with ⟨a1, a2, a3⟩ | ⟨a1, a2⟩ <;> rcases e2 with ⟨b1, b2, b3⟩ | ⟨b1, b2⟩
  · rw [a1, b1]
  · exfalso
    rcases b2 with b2 | b2
    · omega
    · exact b2 a3
  · exfalso
    rcases a2 with a2 | a2
    · omega
    · exact a2 b3
  · rw [a1, b1]

/-! ## C7: no video stream -/

/-- C7. Whenever the container opens but the best-video-stream index is negative, with or without
an audio stream, `main` writes the diagnostic and returns 1 having done nothing else than
initialise the network layer, open the input and look for streams: neither `initVideoStream` nor
`initAudio` is called, so no decoder is opened and no window, texture or audio device is
created. -/
theorem missing_video_stream (env : Env) (fuel : Nat) (inp : Input) (hargc : 2 ≤ inp.argc)
    (hopen : inp.openOk = true) (hv : inp.vIdx < 0) :
    main env fuel inp = Res.ok 1
      { trace := [Event.networkInit, Event.openInput, Event.findStreamInfo,
          Event.findBestStream true, Event.findBestStream false,
          Event.stderr "no video stream"] } := by
  simp [main, not_lt.mpr hargc, hopen, hv, World.emit]

/-! ## C6: failure of the audio device -/

/-- The only failure `initAudio` reports is that of the audio decoder. -/
theorem initAudio_reports_only_decoder (o : AudioSetup) (au au1 : AudioState) (w w1 : World)
    (h : initAudio o au w = Res.ok (false, au1) w1) : o.decoderOpened = false := by
  obtain ⟨d, x, m, r, sv⟩ := o
  cases d
  · rfl
  · cases x <;> cases m <;> cases sv <;> simp [initAudio] at h

/-- C6 at the failing input. With a video and an audio stream whose decoders open, when
`XAudio2Create` stores no engine, `initAudio` does not return `false`: it goes on to call
`CreateMasteringVoice` through the null engine pointer, and `main` never reaches its `return 0`.
The same happens when the mastering voice or the source voice is not created. -/
theorem audio_device_failure_faults :
    initAudio deviceFailureInput.audio {} {} =
      Res.fault { trace := [Event.openDecoder false, Event.xaudio2Create] } ∧
    (∃ w, main idealEnv 1 deviceFailureInput = Res.fault w) ∧
    (∃ w, initAudio { deviceFailureInput.audio with xaCreated := true, masterCreated := false }
      {} {} = Res.fault w) ∧
    (∃ w, initAudio { deviceFailureInput.audio with xaCreated := true, srcCreated := false }
      {} {} = Res.fault w) := by
  refine ⟨by simp [initAudio, deviceFailureInput, audioOk, World.emit], ?_,
    by simp [initAudio, deviceFailureInput, audioOk],
    by simp [initAudio, deviceFailureInput, audioOk]⟩
  simp [main, deviceFailureInput, audioOk, videoOk, initVideoStream, initHaveAudio, initAudio,
    World.emit]

/-! ## C5: exit code and the audio stream -/

/-- C5 at the failing input. A file with a video and an audio stream whose decoders open, on a
machine where `XAudio2Create` stores no engine: `main` runs into the null dereference in
`initAudio` and never returns an exit code, while the same run without the audio stream
(`aIdx = -1`) returns 0. The state of the audio side alone decides between exit code 0 and a
crash. -/
theorem audio_failure_changes_exit :
    main idealEnv 1 deviceFailureInput =
      Res.fault { trace := [Event.networkInit, Event.openInput, Event.findStreamInfo,
        Event.findBestStream true, Event.findBestStream false, Event.openDecoder true,
        Event.createWindow 640 480, Event.createTexture 640 480, Event.openDecoder false,
        Event.xaudio2Create] } ∧
    main idealEnv 1 { deviceFailureInput with aIdx := -1 } =
      Res.ok 0 { reads := 1, trace := [Event.networkInit, Event.openInput, Event.findStreamInfo,
        Event.findBestStream true, Event.findBestStream false, Event.openDecoder true,
        Event.createWindow 640 480, Event.createTexture 640 480, Event.cleanup false] } := by
  constructor
  · simp [main, deviceFailureInput, audioOk, videoOk, initVideoStream, initHaveAudio, initAudio,
      World.emit]
  · simp [main, deviceFailureInput, audioOk, videoOk, initVideoStream, initHaveAudio, mainLoop,
      clockNow, idealEnv, World.emit]

/-! ## Concrete runs -/

theorem idealEnv_fair : Fair idealEnv 1 := fun _ => ⟨0, by decide, by simp [idealEnv]⟩

theorem slowEnv_fair : Fair slowEnv 3 := by
  intro k
  refine ⟨2, by decide, ?_⟩
  have : ¬ k + 2 < 2 := by omega
  simp [slowEnv, this]

/-- A saturated device: the call polls 48 twice, sleeping 2 ms after each, then polls 47,
allocates the block and submits it. -/
theorem saturated_run :
    (queueAudioFrame slowEnv 5 {} oneSample fullWorld).world.trace =
      [Event.getState 48, Event.sleepMs 2, Event.getState 48, Event.sleepMs 2,
        Event.getState 47, Event.newBlock 0 [1, 2, 3, 4],
        Event.submit { AudioBytes := 4, pAudioData := 0, pContext := 0 } 47] := by
  simp [queueAudioFrame, waitBelow48, getState, sleepMs, slowEnv, fullWorld, oneSample,
    wrapInt32, growScratch, resize, writeAt0, outBytes, newBlock, submitSourceBuffer, Res.world]

theorem backpressure_bound_witness :
    fullWorld.queued ≤ 48 ∧
    (queueAudioFrames slowEnv 5 {} [oneSample, twoSamples] fullWorld).world.queued ≤ 48 := by
  have hq : fullWorld.queued ≤ 48 := by decide
  obtain ⟨evs, _, _, _, h⟩ :=
    (backpressure_bound slowEnv 5 {} [oneSample, twoSamples] fullWorld hq).1
  exact ⟨hq, h⟩

theorem drop_or_submit_witness :
    0 < oneSample.outS ∧ Contract oneSample ∧
    ∃ au1 w1, queueAudioFrame slowEnv 5 {} oneSample fullWorld = Res.ok au1 w1 := by
  have h0 : 0 < oneSample.outS := by decide
  have hc : Contract oneSample := by norm_num [Contract, oneSample]
  exact ⟨h0, hc, ((drop_or_submit slowEnv 5 {} oneSample fullWorld).2.2 h0 hc).2 3 slowEnv_fair
    (by decide) (by decide)⟩

theorem scratch_growth_witness :
    ∃ au1 w1, queueAudioFrames slowEnv 5 {} [oneSample, emptyFrame, twoSamples, oneSample]
      fullWorld = Res.ok au1 w1 ∧ (au1.scratch.length : ℤ) = 256 := by
  have hint : ∀ f ∈ [oneSample, emptyFrame, twoSamples, oneSample], f.maxB < 2147483648 := by
    simp [oneSample, emptyFrame, twoSamples]
  have key := scratch_growth slowEnv 5 [oneSample, emptyFrame, twoSamples, oneSample] {}
    fullWorld rfl hint
  obtain ⟨au1, w1, h⟩ := key.2 3 slowEnv_fair (by decide) (by decide) (by
    simp [oneSample, emptyFrame, twoSamples, Contract])
  refine ⟨au1, w1, h, ?_⟩
  rw [(key.1 au1 w1 h).1]
  simp [oneSample, emptyFrame, twoSamples]

theorem copy_in_bounds_witness :
    outBytes twoSamples.outS = 8 ∧
    outBytes twoSamples.outS ≤
      ((writeAt0 (growScratch [] twoSamples.maxB) twoSamples.pcm).length : ℤ) := by
  have key := copy_in_bounds idealEnv 1 {} twoSamples {} (by decide)
    (by norm_num [twoSamples]) (by norm_num [twoSamples]) (by norm_num [twoSamples])
  exact ⟨by rw [key.1]; norm_num [twoSamples], key.2.2.1⟩

theorem sampleInput_returns : ∃ w, main idealEnv 1 sampleInput = Res.ok 0 w := by
  refine (exit_codes_when_returning idealEnv 1 sampleInput).2.2.2.1 1 (by decide) ?_ (Or.inr (Or.inr
    ⟨by simp [DeviceCreated, sampleInput, audioOk], idealEnv_fair, le_refl 1, ?_⟩))
  · simp [SetupFails, sampleInput, videoOk]
  · intro pkt hpkt f hf
    simp only [sampleInput, List.mem_cons, List.mem_singleton, List.not_mem_nil, or_false]
      at hpkt
    rcases hpkt with rfl | rfl
    · simp [videoPacket] at hf
    · simp only [audioPacket, List.mem_singleton] at hf
      subst hf
      norm_num [oneSample, Contract]

theorem missing_video_stream_witness :
    main idealEnv 1 audioOnlyInput = Res.ok 1
      { trace := [Event.networkInit, Event.openInput, Event.findStreamInfo,
          Event.findBestStream true, Event.findBestStream false,
          Event.stderr "no video stream"] } :=
  missing_video_stream idealEnv 1 audioOnlyInput (by decide) rfl (by decide)

/-! ## Rounding errors of the lead -/

theorem abs_toDouble_sub_le {x B : ℚ} (h : |x| ≤ B) : |toDouble x - x| ≤ B / 2 ^ 53 :=
  le_trans (abs_toDouble_sub x) (div_le_div_of_nonneg_right h (by positivity))

/-- The lead computed in `double` is within `2 ^ -30` s of the exact lead, for targets up to
`2 ^ 20` s and as much elapsed time. -/
theorem lead_close (t0 t : ℚ) (N : ℤ) (hA0 : 0 ≤ t - t0) (hA : t - t0 ≤ 1048576) (hN0 : 0 ≤ N)
    (hN : (N : ℚ) / 1000000000 ≤ 1048577) :
    |toDouble (toDouble (t - t0) - toDouble (toDouble (N : ℚ) / 1000000000)) -
      ((t - t0) - (N : ℚ) / 1000000000)| ≤ 1 / 2 ^ 30 := by
  have hNq : (N : ℚ) ≤ 1048577000000000 := by
    rw [div_le_iff₀ (by norm_num)] at hN
    linarith
  have hN53 : N < 2 ^ 53 := by
    have : N ≤ 1048577000000000 := by exact_mod_cast hNq
    omega
  rw [toDouble_natCast hN0 hN53]
  have hE0 : (0 : ℚ) ≤ (N : ℚ) / 1000000000 := div_nonneg (by exact_mod_cast hN0) (by norm_num)
  have e1 := abs_le.mp (abs_toDouble_sub_le (x := t - t0) (B := 1048576)
    (by rw [abs_of_nonneg hA0]; exact hA))
  have e2 := abs_le.mp (abs_toDouble_sub_le (x := (N : ℚ) / 1000000000) (B := 1048577)
    (by rw [abs_of_nonneg hE0]; exact hN))
  have e3 := abs_le.mp (abs_toDouble_sub_le
    (x := toDouble (t - t0) - toDouble ((N : ℚ) / 1000000000)) (B := 4194304)
    (by rw [abs_le]; constructor <;> norm_num at e1 e2 ⊢ <;> linarith))
  rw [abs_le]
  norm_num at e1 e2 e3 ⊢
  constructor <;> linarith

/-- The sleep requested for a lead above `0.003`, in seconds: at most the clamped lead (up to
rounding), more than the clamped lead minus one millisecond, and exactly 300 ms when the lead
is above `0.3`. -/
theorem sleep_seconds {lead : ℚ} (h : d003 < lead) :
    3 ≤ truncToInt (toDouble (min lead d03 * 1000)) ∧
    truncToInt (toDouble (min lead d03 * 1000)) ≤ 300 ∧
    ((truncToInt (toDouble (min lead d03 * 1000)) : ℤ) : ℚ) / 1000 ≤ min lead d03 + 1 / 2 ^ 54 ∧
    min lead d03 - 1 / 2 ^ 54 - 1 / 1000 <
      ((truncToInt (toDouble (min lead d03 * 1000)) : ℤ) : ℚ) / 1000 ∧
    (d03 < lead → truncToInt (toDouble (min lead d03 * 1000)) = 300) := by
  obtain ⟨b3, b300⟩ := sleep_bounds h
  obtain ⟨y3, y300⟩ := clamped_ms_bounds h
  have h1 := d003_bounds.1
  have h2 := d03_bounds
  have hlo : (3 / 1000 : ℚ) ≤ min lead d03 := le_min (by linarith) (by linarith [h2.1])
  have hhi : min lead d03 ≤ 3 / 10 := le_trans (min_le_right _ _) h2.2
  have herr := abs_le.mp (abs_toDouble_sub_le (x := min lead d03 * 1000) (B := 300)
    (by rw [abs_of_nonneg (by linarith)]; linarith))
  have hfl := Int.floor_le (toDouble (min lead d03 * 1000))
  have hlt := Int.lt_floor_add_one (toDouble (min lead d03 * 1000))
  refine ⟨b3, b300, ?_, ?_, ?_⟩
  · rw [truncToInt_of_nonneg (by linarith)]
    norm_num at herr ⊢
    linarith
  · rw [truncToInt_of_nonneg (by linarith)]
    norm_num at herr ⊢
    linarith
  · intro hc
    rw [min_eq_right hc.le, toDouble_d03_ms, truncToInt_of_nonneg (by norm_num),
      Int.floor_eq_iff]
    norm_num

theorem pureStep_anchored {t0 : ℚ} (a c : ℤ) (t : ℚ) (h0 : 0 ≤ t0) :
    (pureStep (t0, a) c t).1 = (t0, a) := by
  simp [pureStep, not_lt.mpr h0]

/-- One frame on an anchored timeline when no time passes outside of sleeps. The frame before
was presented at clock `c` with timestamp `prev`, at most `2 ^ -29` s late. Then the sleep is
between 0 and 300 ms and the new frame is again at most `2 ^ -29` s late; and when the frame
before was at most 3 ms (and `2 ^ -29` s) early and the gap of the timestamps is at most 300 ms,
the sleep differs from the gap by at most 3 ms (and `2 ^ -28` s) and the new frame is again at
most 3 ms (and `2 ^ -29` s) early. -/
theorem pureStep_spec {t0 prev t : ℚ} {a c : ℤ} (h0 : 0 ≤ t0) (hp0 : 0 ≤ prev - t0)
    (hlt : prev < t) (hA : t - t0 ≤ 1048576) (hN0 : 0 ≤ c - a)
    (he : -(1 / 2 ^ 29) ≤ earlyAt t0 a (prev, c)) :
    0 ≤ (pureStep (t0, a) c t).2 - c ∧ (pureStep (t0, a) c t).2 - c ≤ 300000000 ∧
    -(1 / 2 ^ 29) ≤ earlyAt t0 a (t, (pureStep (t0, a) c t).2) ∧
    (earlyAt t0 a (prev, c) ≤ 3 / 1000 + 1 / 2 ^ 29 → t - prev ≤ 3 / 10 →
      |(((pureStep (t0, a) c t).2 - c : ℤ) : ℚ) / 1000000000 - (t - prev)| ≤
        3 / 1000 + 1 / 2 ^ 28 ∧
      earlyAt t0 a (t, (pureStep (t0, a) c t).2) ≤ 3 / 1000 + 1 / 2 ^ 29) := by
  simp only [earlyAt] at he ⊢
  have hE : ((c - a : ℤ) : ℚ) / 1000000000 ≤ 1048577 := by
    have : (1 : ℚ) / 2 ^ 29 ≤ 1 := by norm_num
    linarith
  have hcl := abs_le.mp (lead_close t0 t (c - a) (by linarith) hA hN0 hE)
  have hd3 := d003_bounds
  have hd03 := d03_bounds
  have hsec : ∀ ms : ℤ, ((c + ms * 1000000 - c : ℤ) : ℚ) / 1000000000 = (ms : ℚ) / 1000 := by
    intro ms; push_cast; ring
  have hea : ∀ ms : ℤ, ((c + ms * 1000000 - a : ℤ) : ℚ) / 1000000000 =
      ((c - a : ℤ) : ℚ) / 1000000000 + (ms : ℚ) / 1000 := by
    intro ms; push_cast; ring
  simp only [pureStep, not_lt.mpr h0, if_false]
  generalize toDouble (toDouble (t - t0) -
    toDouble (toDouble ((c - a : ℤ) : ℚ) / 1000000000)) = lc at hcl ⊢
  generalize ((c - a : ℤ) : ℚ) / 1000000000 = E at he hE hcl hea ⊢
  have c29 : (1 : ℚ) / 2 ^ 29 = 1 / 536870912 := by norm_num
  have c28 : (1 : ℚ) / 2 ^ 28 = 1 / 268435456 := by norm_num
  have c30 : (1 : ℚ) / 2 ^ 30 = 1 / 1073741824 := by norm_num
  have c54 : (1 : ℚ) / 2 ^ 54 = 1 / 18014398509481984 := by norm_num
  have c60 : (1 : ℚ) / 2 ^ 60 = 1 / 1152921504606846976 := by norm_num
  rw [c29] at he ⊢
  rw [c28]
  rw [c30] at hcl
  rw [c54] at hd03
  rw [c60] at hd3
  rcases le_or_lt lc d003 with hl | hl
  · have hE0 : ((c - a : ℤ) : ℚ) / 1000000000 = E := by
      have := hea 0
      simpa using this
    rw [pacingSleep_of_late hl]
    simp only [sub_self, le_refl, Int.cast_zero, zero_div, true_and, hE0]
    refine ⟨by norm_num, by linarith, ?_⟩
    intro he3 hg
    rw [abs_le]
    refine ⟨⟨by linarith, by linarith [hcl.1, hcl.2]⟩, by linarith [hcl.1, hcl.2]⟩
  · obtain ⟨s3, s300, sup, slo, scl⟩ := sleep_seconds hl
    rw [pacingSleep_of_early hl]
    simp only
    rw [c54] at sup slo
    generalize truncToInt (toDouble (min lc d03 * 1000)) = ms at s3 s300 sup slo scl ⊢
    rw [max_eq_left (by omega), hsec, hea]
    have hmle := min_le_left lc d03
    have hmle2 := min_le_right lc d03
    refine ⟨by omega, by omega, by linarith [hcl.1, hcl.2], ?_⟩
    intro he3 hg
    rcases le_or_lt lc d03 with hu | hu
    · rw [min_eq_left hu] at sup slo
      rw [abs_le]
      refine ⟨⟨by linarith [hcl.1, hcl.2], by linarith [hcl.1, hcl.2]⟩,
        by linarith [hcl.1, hcl.2]⟩
    · have h300 := scl hu
      subst h300
      rw [abs_le]
      push_cast
      refine ⟨⟨by linarith [hcl.1, hcl.2], by linarith [hcl.1, hcl.2]⟩,
        by linarith [hcl.1, hcl.2]⟩

/-! ## Spacing of a run on an ideal clock -/

theorem interval_cons_succ (x : ℚ × ℤ) (l : List (ℚ × ℤ)) (i : Nat) :
    interval (x :: l) (i + 1) = interval l i := by
  simp [interval]

theorem interval_cons_cons_zero (x y : ℚ × ℤ) (l : List (ℚ × ℤ)) :
    interval (x :: y :: l) 0 = ((y.2 - x.2 : ℤ) : ℚ) / 1000000000 := by
  simp [interval]

theorem ptsGap_cons_succ (x : ℚ × ℤ) (l : List (ℚ × ℤ)) (i : Nat) :
    ptsGap (x :: l) (i + 1) = ptsGap l i := by
  simp [ptsGap]

theorem ptsGap_cons_cons_zero (x y : ℚ × ℤ) (l : List (ℚ × ℤ)) :
    ptsGap (x :: y :: l) 0 = y.1 - x.1 := by
  simp [ptsGap]

theorem pureRun_length (s : ℚ × ℤ) (c : ℤ) (ts : List ℚ) : (pureRun s c ts).length = ts.length := by
  induction ts generalizing s c with
  | nil => rfl
  | cons t ts ih => simp [pureRun, ih]

theorem pureRun_map_fst (s : ℚ × ℤ) (c : ℤ) (ts : List ℚ) :
    (pureRun s c ts).map Prod.fst = ts := by
  induction ts generalizing s c with
  | nil => rfl
  | cons t ts ih => simp [pureRun, ih]

theorem pureRun_spacing {t0 : ℚ} {a : ℤ} (h0 : 0 ≤ t0) : ∀ (ts : List ℚ) (prev : ℚ) (c : ℤ),
    0 ≤ prev - t0 → 0 ≤ c - a → -(1 / 2 ^ 29) ≤ earlyAt t0 a (prev, c) →
    List.Chain (· < ·) prev ts → (∀ t ∈ ts, t - t0 ≤ 1048576) →
    (∀ i, i < ts.length →
      0 ≤ interval ((prev, c) :: pureRun (t0, a) c ts) i ∧
      interval ((prev, c) :: pureRun (t0, a) c ts) i ≤ 3 / 10 ∧
      -(1 / 2 ^ 29) ≤ earlyAt t0 a (((prev, c) :: pureRun (t0, a) c ts).getD i (0, 0)) ∧
      (earlyAt t0 a (((prev, c) :: pureRun (t0, a) c ts).getD i (0, 0)) ≤ 3 / 1000 + 1 / 2 ^ 29 →
        ptsGap ((prev, c) :: pureRun (t0, a) c ts) i ≤ 3 / 10 →
        |interval ((prev, c) :: pureRun (t0, a) c ts) i -
          ptsGap ((prev, c) :: pureRun (t0, a) c ts) i| ≤ 3 / 1000 + 1 / 2 ^ 28)) ∧
    (earlyAt t0 a (prev, c) ≤ 3 / 1000 + 1 / 2 ^ 29 → ∀ i, i < ts.length →
      (∀ j, j ≤ i → ptsGap ((prev, c) :: pureRun (t0, a) c ts) j ≤ 3 / 10) →
      |interval ((prev, c) :: pureRun (t0, a) c ts) i -
        ptsGap ((prev, c) :: pureRun (t0, a) c ts) i| ≤ 3 / 1000 + 1 / 2 ^ 28) := by
  intro ts
  induction ts with
  | nil =>
    intro prev c _ _ _ _ _
    exact ⟨fun i hi => absurd hi (Nat.not_lt_zero i),
      fun _ i hi => absurd hi (Nat.not_lt_zero i)⟩
  | cons t ts ih =>
    intro prev c hp0 hN0 he hch hrange
    rw [List.chain_cons] at hch
    obtain ⟨hlt, hch⟩ := hch
    have hA : t - t0 ≤ 1048576 := hrange t (List.mem_cons_self _ _)
    obtain ⟨s1, s2, s3, s4⟩ := pureStep_spec h0 hp0 hlt hA hN0 he
    have hst := pureStep_anchored a c t h0
    obtain ⟨ih1, ih2⟩ := ih t (pureStep (t0, a) c t).2 (by linarith) (by omega) s3 hch
      (fun x hx => hrange x (List.mem_cons_of_mem _ hx))
    have hiv : interval ((prev, c) :: pureRun (t0, a) c (t :: ts)) 0 =
        (((pureStep (t0, a) c t).2 - c : ℤ) : ℚ) / 1000000000 := by
      simp [pureRun, interval_cons_cons_zero]
    have hgp : ptsGap ((prev, c) :: pureRun (t0, a) c (t :: ts)) 0 = t - prev := by
      simp [pureRun, ptsGap_cons_cons_zero]
    have hiv0 : (0 : ℚ) ≤ (((pureStep (t0, a) c t).2 - c : ℤ) : ℚ) / 1000000000 :=
      div_nonneg (by exact_mod_cast s1) (by norm_num)
    have hiv3 : (((pureStep (t0, a) c t).2 - c : ℤ) : ℚ) / 1000000000 ≤ 3 / 10 := by
      rw [div_le_iff₀ (by norm_num)]
      have : (((pureStep (t0, a) c t).2 - c : ℤ) : ℚ) ≤ ((300000000 : ℤ) : ℚ) := by
        exact_mod_cast s2
      push_cast at this ⊢
      linarith
    have htail : ∀ k, ((prev, c) :: pureRun (t0, a) c (t :: ts)).getD (k + 1) (0, 0) =
        ((t, (pureStep (t0, a) c t).2) :: pureRun (t0, a) (pureStep (t0, a) c t).2 ts).getD k
          (0, 0) := by
      intro k
      simp [pureRun, hst]
    have hivs : ∀ k, interval ((prev, c) :: pureRun (t0, a) c (t :: ts)) (k + 1) =
        interval ((t, (pureStep (t0, a) c t).2) ::
          pureRun (t0, a) (pureStep (t0, a) c t).2 ts) k := by
      intro k
      rw [interval_cons_succ]
      simp [pureRun, hst]
    have hgps : ∀ k, ptsGap ((prev, c) :: pureRun (t0, a) c (t :: ts)) (k + 1) =
        ptsGap ((t, (pureStep (t0, a) c t).2) ::
          pureRun (t0, a) (pureStep (t0, a) c t).2 ts) k := by
      intro k
      rw [ptsGap_cons_succ]
      simp [pureRun, hst]
    constructor
    · intro i hi
      cases i with
      | zero =>
        rw [hiv, hgp]
        refine ⟨hiv0, hiv3, by simpa using he, ?_⟩
        intro he3 hg
        exact (s4 (by simpa using he3) hg).1
      | succ k =>
        rw [hivs, hgps, htail]
        exact ih1 k (by simpa using hi)
    · intro he3 i hi hgaps
      have hg0 : t - prev ≤ 3 / 10 := by
        have := hgaps 0 (Nat.zero_le i)
        rwa [hgp] at this
      obtain ⟨t1, t2⟩ := s4 he3 hg0
      cases i with
      | zero =>
        rw [hiv, hgp]
        exact t1
      | succ k =>
        rw [hivs, hgps]
        refine ih2 t2 k (by simpa using hi) ?_
        intro j hj
        have := hgaps (j + 1) (by omega)
        rwa [hgps] at this

theorem pureStep_fresh (s : ℚ × ℤ) (c : ℤ) (t : ℚ) (hs : s.1 < 0) :
    pureStep s c t = ((t, c), c) := by
  have h : pacingSleep 0 = none := pacingSleep_of_late d003_pos.le
  simp [pureStep, hs, toDouble_zero, h]

theorem pureRun_append (xs ys : List ℚ) : ∀ (s : ℚ × ℤ) (c : ℤ),
    pureRun s c (xs ++ ys) =
      pureRun s c xs ++ pureRun (pureEnd s c xs).1 (pureEnd s c xs).2 ys := by
  induction xs with
  | nil => intro s c; rfl
  | cons x xs ih => intro s c; simp [pureRun, pureEnd, ih]

theorem pureEnd_append (xs ys : List ℚ) : ∀ (s : ℚ × ℤ) (c : ℤ),
    pureEnd s c (xs ++ ys) = pureEnd (pureEnd s c xs).1 (pureEnd s c xs).2 ys := by
  induction xs with
  | nil => intro s c; rfl
  | cons x xs ih => intro s c; simp [pureEnd, ih]

/-! ## The loop on an ideal clock -/

theorem presents_append (xs ys : List Event) :
    presents (xs ++ ys) = presents xs ++ presents ys := by
  induction xs with
  | nil => rfl
  | cons e es ih => cases e <;> simp [presents, ih]

/-- On a clock on which no time passes outside of sleeps, one turn of the video loop moves the
timing variables and the clock as `pureStep` does and presents the frame at the new clock. -/
theorem videoFrame_pure (env : Env) (hideal : ∀ k, env.work k = 0) (tb : AVRational) (p : Pacer)
    (fV : VFrame) (w : World) :
    ((videoFrame env tb p fV w).1.firstPts, (videoFrame env tb p fV w).1.playStart) =
      (pureStep (p.firstPts, p.playStart) w.clock (framePts tb fV)).1 ∧
    (videoFrame env tb p fV w).2.clock =
      (pureStep (p.firstPts, p.playStart) w.clock (framePts tb fV)).2 ∧
    presents (videoFrame env tb p fV w).2.trace =
      presents w.trace ++
        [(framePts tb fV, (pureStep (p.firstPts, p.playStart) w.clock (framePts tb fV)).2)] := by
  by_cases hneg : p.firstPts < 0
  · simp only [videoFrame, anchor, frameLead, clockNow, hideal, pureStep, hneg, if_true,
      Nat.cast_zero, add_zero, presentVideoFrame, World.emit]
    cases pacingSleep (toDouble (toDouble (framePts tb fV - framePts tb fV) -
      toDouble (toDouble ((w.clock - w.clock : ℤ) : ℚ) / 1000000000))) with
    | none => simp [presents_append, presents]
    | some ms => simp [sleepMs, presents_append, presents]
  · simp only [videoFrame, anchor, frameLead, clockNow, hideal, pureStep, hneg, if_false,
      Nat.cast_zero, add_zero, presentVideoFrame, World.emit]
    cases pacingSleep (toDouble (toDouble (framePts tb fV - p.firstPts) -
      toDouble (toDouble ((w.clock - p.playStart : ℤ) : ℚ) / 1000000000))) with
    | none => simp [presents_append, presents]
    | some ms => simp [sleepMs, presents_append, presents]

theorem videoFrames_pure (env : Env) (hideal : ∀ k, env.work k = 0) (tb : AVRational) :
    ∀ (frames : List VFrame) (p : Pacer) (w : World),
    (((videoFrames env tb p frames w).1.firstPts, (videoFrames env tb p frames w).1.playStart),
        (videoFrames env tb p frames w).2.clock) =
      pureEnd (p.firstPts, p.playStart) w.clock (frames.map (framePts tb)) ∧
    presents (videoFrames env tb p frames w).2.trace =
      presents w.trace ++ pureRun (p.firstPts, p.playStart) w.clock (frames.map (framePts tb)) := by
  intro frames
  induction frames with
  | nil => intro p w; simp [videoFrames, pureEnd, pureRun]
  | cons fV rest ih =>
    intro p w
    obtain ⟨h1, h2, h3⟩ := videoFrame_pure env hideal tb p fV w
    obtain ⟨i1, i2⟩ := ih (videoFrame env tb p fV w).1 (videoFrame env tb p fV w).2
    simp only [videoFrames, List.map_cons, pureEnd, pureRun]
    rw [i1, i2, h1, h2, h3]
    simp

theorem presents_wait {b : Nat} {evs : List Event} (h : WaitEvents b evs) : presents evs = [] := by
  induction evs with
  | nil => rfl
  | cons e es ih =>
    have hes : WaitEvents b es := fun x hx => h x (List.mem_cons_of_mem _ hx)
    rcases h e (List.mem_cons_self _ _) with he | ⟨n, _, _, he⟩ <;> subst he <;>
      simpa [presents] using ih hes

/-- A call of `queueAudioFrame` presents nothing, whatever its outcome. -/
theorem queueAudioFrame_presents (env : Env) (fuel : Nat) (au : AudioState) (fA : AFrame)
    (w : World) :
    presents (queueAudioFrame env fuel au fA w).world.trace = presents w.trace := by
  have hp := queueAudioFrame_post env fuel au fA w
  revert hp
  generalize queueAudioFrame env fuel au fA w = r
  intro hp
  cases r with
  | ok au1 w1 =>
    obtain ⟨_, h0, h1⟩ := hp
    by_cases hs : fA.outS ≤ 0
    · rw [Res.world, h0 hs]
    · obtain ⟨evs, q, e1, e2, _⟩ := h1 (not_le.mp hs)
      rw [Res.world, e1, presents_append, presents_append, presents_wait e2]
      simp [presents]
  | stuck w1 =>
    obtain ⟨_, evs, e1, e2, _⟩ := hp
    rw [Res.world, e1, presents_append, presents_wait e2]
    simp
  | fault w1 =>
    rcases hp with ⟨h0, _⟩ | ⟨_, _, evs, q, e1, e2, _⟩
    · rw [Res.world, h0]
    · rw [Res.world, e1, presents_append, presents_append, presents_wait e2]
      simp [presents]

/-- Against a device that finishes a buffer before every call, a call of `queueAudioFrame`
started with at most 48 buffers pending never sleeps: the clock does not move. -/
theorem queueAudioFrame_clock (env : Env) (hdrain : ∀ k, 0 < env.drain k) (fuel : Nat)
    (au : AudioState) (fA : AFrame) (w : World) (hq : w.queued ≤ 48) :
    (queueAudioFrame env fuel au fA w).world.clock = w.clock := by
  have hlt : (getState env w).1 < 48 := by
    have := hdrain w.ticks
    simp only [getState]
    omega
  unfold queueAudioFrame
  split_ifs with h1 h2
  · rfl
  · rfl
  · simp only [waitBelow48_of_lt env fuel _ _ hlt]
    split_ifs <;> simp [Res.world, submitSourceBuffer, newBlock, getState]

theorem queueAudioFrames_quiet (env : Env) (hdrain : ∀ k, 0 < env.drain k) (fuel : Nat) :
    ∀ (frames : List AFrame) (au : AudioState) (w : World), w.queued ≤ 48 →
    (queueAudioFrames env fuel au frames w).world.clock = w.clock ∧
    presents (queueAudioFrames env fuel au frames w).world.trace = presents w.trace ∧
    (queueAudioFrames env fuel au frames w).world.queued ≤ 48 := by
  intro frames
  induction frames with
  | nil => intro au w hq; exact ⟨rfl, rfl, hq⟩
  | cons fA rest ih =>
    intro au w hq
    have h1 := queueAudioFrame_clock env hdrain fuel au fA w hq
    have h2 := queueAudioFrame_presents env fuel au fA w
    obtain ⟨_, _, _, _, h3⟩ := queueAudioFrame_events env fuel au fA w hq
    simp only [queueAudioFrames]
    revert h1 h2 h3
    generalize queueAudioFrame env fuel au fA w = r
    intro h1 h2 h3
    cases r with
    | ok au1 w1 =>
      simp only [Res.world] at h1 h2 h3
      obtain ⟨i1, i2, i3⟩ := ih au1 w1 h3
      exact ⟨i1.trans h1, i2.trans h2, i3⟩
    | stuck w1 => exact ⟨h1, h2, h3⟩
    | fault w1 => exact ⟨h1, h2, h3⟩

/-- On a clock on which no time passes outside of sleeps and against a device that always has
room, the presentations of the dispatch loop are those of `pureRun` on an initial segment of the
timestamps of the decoded video frames, whatever ends the loop. -/
theorem mainLoop_pure (env : Env) (hideal : ∀ k, env.work k = 0)
    (hdrain : ∀ k, 0 < env.drain k) (fuel : Nat) (tb : AVRational) (vIdx aIdx : ℤ)
    (haveAudio : Bool) :
    ∀ (packets : List Packet) (p : Pacer) (au : AudioState) (w : World), w.queued ≤ 48 →
    ∃ ts, ts <+: videoPts tb vIdx packets ∧
      presents (mainLoop env fuel tb vIdx aIdx haveAudio packets p au w).world.trace =
        presents w.trace ++ pureRun (p.firstPts, p.playStart) w.clock ts := by
  intro packets
  induction packets with
  | nil =>
    intro p au w _
    exact ⟨[], List.nil_prefix, by simp [mainLoop, Res.world, pureRun]⟩
  | cons pkt rest ih =>
    intro p au w hq
    unfold mainLoop
    split_ifs with c1 c2 c3 c4 c5
    · exact ⟨[], List.nil_prefix, by simp [Res.world, pureRun]⟩
    · obtain ⟨e1, e2⟩ := videoFrames_pure env hideal tb pkt.video p w
      obtain ⟨ts, hts, hpres⟩ := ih (videoFrames env tb p pkt.video w).1 au
        (videoFrames env tb p pkt.video w).2 (by rw [videoFrames_queued]; exact hq)
      refine ⟨pkt.video.map (framePts tb) ++ ts, ?_, ?_⟩
      · simp only [videoPts, c2, c3, and_self, if_true]
        exact (List.prefix_append_right_inj _).mpr hts
      · rw [hpres, e2, pureRun_append, ← e1, List.append_assoc]
    · obtain ⟨ts, hts, hpres⟩ := ih p au w hq
      refine ⟨ts, ?_, hpres⟩
      simpa [videoPts, c3] using hts
    · obtain ⟨q1, q2, q3⟩ := queueAudioFrames_quiet env hdrain fuel pkt.audio au w hq
      revert q1 q2 q3
      generalize queueAudioFrames env fuel au pkt.audio w = r
      intro q1 q2 q3
      cases r with
      | ok au1 w1 =>
        simp only [Res.world] at q1 q2 q3
        obtain ⟨ts, hts, hpres⟩ := ih p au1 w1 q3
        refine ⟨ts, ?_, ?_⟩
        · simpa [videoPts, c2] using hts
        · simp only []
          rw [hpres, q1, q2]
      | stuck w1 =>
        exact ⟨[], List.nil_prefix, by simpa [pureRun] using q2⟩
      | fault w1 =>
        exact ⟨[], List.nil_prefix, by simpa [pureRun] using q2⟩
    · obtain ⟨ts, hts, hpres⟩ := ih p au w hq
      refine ⟨ts, ?_, hpres⟩
      simpa [videoPts, c2] using hts
    · obtain ⟨ts, hts, hpres⟩ := ih p au w hq
      refine ⟨ts, ?_, hpres⟩
      simpa [videoPts, c2] using hts

theorem initVideoStream_presents (o : VideoSetup) (vs : VideoState) (w : World) :
    presents (initVideoStream o vs w).2.2.trace = presents w.trace := by
  unfold initVideoStream
  cases o.decoderOpened <;> cases o.windowCreated <;>
    simp [World.emit, presents_append, presents]

theorem initHaveAudio_quiet (inp : Input) (w : World) :
    presents (initHaveAudio inp w).world.trace = presents w.trace ∧
    (initHaveAudio inp w).world.queued = w.queued := by
  obtain ⟨argc, openOk, vIdx, aIdx, video, ⟨d, x, m, r, sv⟩, tb, packets⟩ := inp
  unfold initHaveAudio
  split_ifs
  · cases d <;> cases x <;> cases m <;> cases sv <;>
      simp [initAudio, Res.world, World.emit, presents_append, presents]
  · simp [Res.world]

/-- The presentations of a whole run of `main` on such a clock and device. -/
theorem main_pure (env : Env) (hideal : ∀ k, env.work k = 0) (hdrain : ∀ k, 0 < env.drain k)
    (fuel : Nat) (inp : Input) :
    ∃ ts c, ts <+: videoPts inp.tb inp.vIdx inp.packets ∧
      presents (main env fuel inp).world.trace = pureRun (-1, c) c ts := by
  unfold main
  simp only [initVideoStream_fst]
  split_ifs with h1 h2 h3 h4
  · exact ⟨[], 0, List.nil_prefix, by simp [Res.world, World.emit, presents, pureRun]⟩
  · exact ⟨[], 0, List.nil_prefix, by simp [Res.world, World.emit, presents, pureRun]⟩
  · exact ⟨[], 0, List.nil_prefix, by simp [Res.world, World.emit, presents, pureRun]⟩
  · refine ⟨[], 0, List.nil_prefix, ?_⟩
    simp [Res.world, initVideoStream_presents, World.emit, presents, pureRun]
  · generalize hr : initHaveAudio inp _ = r
    have hq : presents r.world.trace = [] ∧ r.world.queued = 0 := by
      rw [← hr]
      refine ⟨(initHaveAudio_quiet inp _).1.trans ?_, (initHaveAudio_quiet inp _).2.trans ?_⟩
      · rw [initVideoStream_presents]
        simp [World.emit, presents]
      · rw [initVideoStream_queued]
        rfl
    obtain ⟨ha, haq⟩ := hq
    cases r with
    | stuck w3 => exact ⟨[], 0, List.nil_prefix, by simpa [Res.world, pureRun] using ha⟩
    | fault w3 => exact ⟨[], 0, List.nil_prefix, by simpa [Res.world, pureRun] using ha⟩
    | ok x w3 =>
      obtain ⟨haveAudio, au⟩ := x
      simp only [Res.world] at ha haq
      obtain ⟨ts, hts, hpres⟩ := mainLoop_pure env hideal hdrain fuel inp.tb inp.vIdx inp.aIdx
        haveAudio inp.packets { playStart := (clockNow env w3).1, firstPts := -1, quit := false }
        au (clockNow env w3).2 (by simp only [clockNow]; omega)
      refine ⟨ts, (clockNow env w3).1, hts, ?_⟩
      simp only []
      revert hpres
      generalize mainLoop env fuel inp.tb inp.vIdx inp.aIdx haveAudio inp.packets _ au _ = r2
      intro hpres
      have hc : presents (clockNow env w3).2.trace = [] := by simpa [clockNow] using ha
      have hcc : (clockNow env w3).2.clock = (clockNow env w3).1 := rfl
      rw [hc, hcc, List.nil_append] at hpres
      cases r2 with
      | stuck w4 => simpa [Res.world] using hpres
      | fault w4 => simpa [Res.world] using hpres
      | ok y w4 =>
        simp only [Res.world] at hpres ⊢
        simp [World.emit, presents_append, presents, hpres]

theorem videoFrame_quit (env : Env) (tb : AVRational) (p : Pacer) (fV : VFrame) (w : World)
    (hq : p.quit = false) (he : fV.escape = false) :
    (videoFrame env tb p fV w).1.quit = false := by
  unfold videoFrame anchor
  split_ifs <;> simp [hq, he]

theorem videoFrames_quit (env : Env) (tb : AVRational) :
    ∀ (frames : List VFrame) (p : Pacer) (w : World), p.quit = false →
    (∀ f ∈ frames, f.escape = false) → (videoFrames env tb p frames w).1.quit = false := by
  intro frames
  induction frames with
  | nil => intro p w hq _; exact hq
  | cons fV rest ih =>
    intro p w hq he
    simp only [videoFrames]
    exact ih _ _ (videoFrame_quit env tb p fV w hq (he fV (List.mem_cons_self _ _)))
      (fun f hf => he f (List.mem_cons_of_mem _ hf))

/-- When nothing interrupts the dispatch loop and it returns, every decoded video frame has been
presented. -/
theorem mainLoop_full (env : Env) (hideal : ∀ k, env.work k = 0)
    (hdrain : ∀ k, 0 < env.drain k) (fuel : Nat) (tb : AVRational) (vIdx aIdx : ℤ)
    (haveAudio : Bool) :
    ∀ (packets : List Packet) (p : Pacer) (au : AudioState) (w : World)
      (s : Pacer × AudioState) (w1 : World), w.queued ≤ 48 → p.quit = false →
    (∀ pkt ∈ packets, pkt.shouldClose = false ∧ ∀ f ∈ pkt.video, f.escape = false) →
    mainLoop env fuel tb vIdx aIdx haveAudio packets p au w = Res.ok s w1 →
    presents w1.trace =
      presents w.trace ++ pureRun (p.firstPts, p.playStart) w.clock (videoPts tb vIdx packets) := by
  intro packets
  induction packets with
  | nil =>
    intro p au w s w1 _ _ _ hok
    simp only [mainLoop, Res.ok.injEq] at hok
    obtain ⟨_, rfl⟩ := hok
    simp [videoPts, pureRun]
  | cons pkt rest ih =>
    intro p au w s w1 hq hquit hplay hok
    have hc := (hplay pkt (List.mem_cons_self _ _)).1
    have hesc := (hplay pkt (List.mem_cons_self _ _)).2
    have hrest : ∀ x ∈ rest, x.shouldClose = false ∧ ∀ f ∈ x.video, f.escape = false :=
      fun x hx => hplay x (List.mem_cons_of_mem _ hx)
    rw [mainLoop] at hok
    split_ifs at hok with c1 c2 c3 c4 c5
    · simp [hquit, hc] at c1
    · obtain ⟨e1, e2⟩ := videoFrames_pure env hideal tb pkt.video p w
      have h := ih _ au _ s w1 (by rw [videoFrames_queued]; exact hq)
        (videoFrames_quit env tb pkt.video p w hquit hesc) hrest hok
      rw [h, e2, List.append_assoc]
      simp only [videoPts, c2, c3, and_self, if_true]
      rw [pureRun_append, ← e1]
    · have h := ih p au w s w1 hq hquit hrest hok
      rw [h]
      simp [videoPts, c3]
    · obtain ⟨q1, q2, q3⟩ := queueAudioFrames_quiet env hdrain fuel pkt.audio au w hq
      cases hr : queueAudioFrames env fuel au pkt.audio w with
      | ok au1 w2 =>
        rw [hr] at hok q1 q2 q3
        simp only [Res.world] at q1 q2 q3
        have h := ih p au1 w2 s w1 q3 hquit hrest hok
        rw [h, q1, q2]
        simp [videoPts, c2]
      | stuck w2 =>
        rw [hr] at hok
        simp at hok
      | fault w2 =>
        rw [hr] at hok
        simp at hok
    · have h := ih p au w s w1 hq hquit hrest hok
      rw [h]
      simp [videoPts, c2]
    · have h := ih p au w s w1 hq hquit hrest hok
      rw [h]
      simp [videoPts, c2]

theorem initVideoStream_clock (o : VideoSetup) (vs : VideoState) (w : World) :
    (initVideoStream o vs w).2.2.clock = w.clock := by
  unfold initVideoStream
  cases o.decoderOpened <;> cases o.windowCreated <;> simp [World.emit]

theorem initHaveAudio_clock (inp : Input) (w : World) :
    (initHaveAudio inp w).world.clock = w.clock := by
  obtain ⟨argc, openOk, vIdx, aIdx, video, ⟨d, x, m, r, sv⟩, tb, packets⟩ := inp
  unfold initHaveAudio
  split_ifs
  · cases d <;> cases x <;> cases m <;> cases sv <;> simp [initAudio, Res.world, World.emit]
  · simp [Res.world]

/-- When nothing interrupts playback and `main` returns after a successful setup, its
presentations are those of `pureRun` from clock 0 on the timestamps of all decoded video
frames. -/
theorem main_full (env : Env) (hideal : ∀ k, env.work k = 0) (hdrain : ∀ k, 0 < env.drain k)
    (fuel : Nat) (inp : Input) (hargc : 2 ≤ inp.argc) (hpass : ¬ SetupFails inp)
    (hplay : Uninterrupted inp) (w : World) (h : main env fuel inp = Res.ok 0 w) :
    presents w.trace = pureRun (-1, 0) 0 (videoPts inp.tb inp.vIdx inp.packets) := by
  unfold SetupFails at hpass
  have ho : inp.openOk = true := by
    cases h : inp.openOk
    · exact absurd (Or.inl h) hpass
    · rfl
  have hv : ¬ inp.vIdx < 0 := fun h => hpass (Or.inr (Or.inl h))
  have hd : inp.video.decoderOpened = true := by
    cases h : inp.video.decoderOpened
    · exact absurd (Or.inr (Or.inr (Or.inl h))) hpass
    · rfl
  have hw : inp.video.windowCreated = true := by
    cases h : inp.video.windowCreated
    · exact absurd (Or.inr (Or.inr (Or.inr h))) hpass
    · rfl
  unfold main at h
  simp only [initVideoStream_fst, ho, hd, hw, if_neg (not_lt.mpr hargc), if_neg hv,
    Bool.not_true, Bool.and_self, Bool.false_eq_true, if_false] at h
  generalize hr : initHaveAudio inp _ = r at h
  have hq : presents r.world.trace = [] ∧ r.world.queued = 0 ∧ r.world.clock = 0 := by
    rw [← hr]
    refine ⟨(initHaveAudio_quiet inp _).1.trans ?_, (initHaveAudio_quiet inp _).2.trans ?_,
      (initHaveAudio_clock inp _).trans ?_⟩
    · rw [initVideoStream_presents]
      simp [World.emit, presents]
    · rw [initVideoStream_queued]
      rfl
    · rw [initVideoStream_clock]
      rfl
  obtain ⟨ha, haq, hac⟩ := hq
  cases r with
  | stuck w3 => simp at h
  | fault w3 => simp at h
  | ok x w3 =>
    obtain ⟨haveAudio, au⟩ := x
    simp only [Res.world] at ha haq hac
    simp only [] at h
    generalize hm : mainLoop env fuel inp.tb inp.vIdx inp.aIdx haveAudio inp.packets _ au _ = r2
      at h
    cases r2 with
    | stuck w4 => simp at h
    | fault w4 => simp at h
    | ok y w4 =>
      simp only [Res.ok.injEq, true_and] at h
      subst h
      have hf := mainLoop_full env hideal hdrain fuel inp.tb inp.vIdx inp.aIdx haveAudio
        inp.packets _ au _ y w4 (by simp only [clockNow]; omega) rfl hplay hm
      simp only [World.emit, presents_append, hf]
      simp [presents, clockNow, hideal, ha, hac]

/-- A frame at least 301 ms ahead of the wall clock is presented after a sleep of exactly
300 ms. -/
theorem pureStep_clamped {t0 t : ℚ} {a c : ℤ} (h0 : 0 ≤ t0) (hA : t - t0 ≤ 1048576)
    (hN0 : 0 ≤ c - a)
    (hfar : 301 / 1000 ≤ (t - t0) - ((c - a : ℤ) : ℚ) / 1000000000) :
    pureStep (t0, a) c t = ((t0, a), c + 300000000) := by
  have hN0q : (0 : ℚ) ≤ ((c - a : ℤ) : ℚ) := by exact_mod_cast hN0
  have hdiv : (0 : ℚ) ≤ ((c - a : ℤ) : ℚ) / 1000000000 := div_nonneg hN0q (by norm_num)
  have hcl := abs_le.mp (lead_close t0 t (c - a) (by linarith) hA hN0 (by linarith))
  have hd3 := d003_bounds
  have hd03 := d03_bounds
  have c30 : (1 : ℚ) / 2 ^ 30 = 1 / 1073741824 := by norm_num
  have c60 : (1 : ℚ) / 2 ^ 60 = 1 / 1152921504606846976 := by norm_num
  rw [c30] at hcl
  rw [c60] at hd3
  simp only [pureStep, not_lt.mpr h0, if_false]
  generalize toDouble (toDouble (t - t0) -
    toDouble (toDouble ((c - a : ℤ) : ℚ) / 1000000000)) = lc at hcl ⊢
  have hbig : d03 < lc := by linarith [hcl.1, hd03.2]
  have hsm : d003 < lc := by linarith [hcl.1, hd3.2]
  rw [pacingSleep_of_early hsm, (sleep_seconds hsm).2.2.2.2 hbig]
  norm_num

/-! ## C3: pacing over a whole run of `main` -/

theorem mainPresents_full (env : Env) (hideal : ∀ k, env.work k = 0)
    (hdrain : ∀ k, 0 < env.drain k) (fuel : Nat) (inp : Input) (hargc : 2 ≤ inp.argc)
    (hpass : ¬ SetupFails inp) (hplay : Uninterrupted inp)
    (haudio : inp.aIdx < 0 ∨ inp.audio.decoderOpened = false ∨
      (DeviceCreated inp.audio ∧ 1 ≤ fuel ∧ AudioWellBehaved inp)) :
    mainPresents env fuel inp = pureRun (-1, 0) 0 (videoPts inp.tb inp.vIdx inp.packets) := by
  have hfair : Fair env 1 := fun k => ⟨0, by norm_num, by simpa using hdrain k⟩
  obtain ⟨w, hw⟩ := main_returns env 1 fuel inp hargc hpass (by
    rcases haudio with h | h | ⟨h1, h2, h3⟩
    · exact Or.inl h
    · exact Or.inr (Or.inl h)
    · exact Or.inr (Or.inr ⟨h1, hfair, h2, h3⟩))
  have h := main_full env hideal hdrain fuel inp hargc hpass hplay w hw
  simp only [mainPresents, hw, Res.world]
  exact h

/-- C3 (amended). For every run of `main` in which no wall time passes outside of sleeps, every
sleep lasts exactly the requested time and the audio device always has room, with the timestamps
of the decoded video frames (the `double` values `pts * av_q2d(tb)`) strictly increasing and
between 0 and `2 ^ 20` s: the frames presented are an initial segment of the decoded frames, and
all of them when the setup succeeds and nothing interrupts playback; the time between presenting
frame `i` and frame `i+1` is between 0 and 300 ms; no frame is presented more than `2 ^ -29` s
after its target; whenever frame `i` was presented at most 3 ms (and `2 ^ -29` s) before its
target and `t[i+1] - t[i]` is at most 300 ms, the time between presenting frame `i` and frame
`i+1` differs from `t[i+1] - t[i]` by at most 3 ms (and `2 ^ -28` s of rounding); this is the
case in particular when every gap `t[j+1] - t[j]` with `j ≤ i` is at most 300 ms. -/
theorem pacing_intervals (env : Env) (fuel : Nat) (inp : Input)
    (hideal : ∀ k, env.work k = 0) (hdrain : ∀ k, 0 < env.drain k)
    (hinc : List.Chain' (· < ·) (videoPts inp.tb inp.vIdx inp.packets))
    (hrange : ∀ t ∈ videoPts inp.tb inp.vIdx inp.packets, 0 ≤ t ∧ t ≤ 1048576) :
    (mainPresents env fuel inp).map Prod.fst <+: videoPts inp.tb inp.vIdx inp.packets ∧
    (2 ≤ inp.argc → ¬ SetupFails inp → Uninterrupted inp →
      (inp.aIdx < 0 ∨ inp.audio.decoderOpened = false ∨
        (DeviceCreated inp.audio ∧ 1 ≤ fuel ∧ AudioWellBehaved inp)) →
      (mainPresents env fuel inp).map Prod.fst = videoPts inp.tb inp.vIdx inp.packets) ∧
    ∀ i, i + 1 < (mainPresents env fuel inp).length →
      0 ≤ interval (mainPresents env fuel inp) i ∧
      interval (mainPresents env fuel inp) i ≤ 3 / 10 ∧
      -(1 / 2 ^ 29) ≤ earliness (mainPresents env fuel inp) i ∧
      (earliness (mainPresents env fuel inp) i ≤ 3 / 1000 + 1 / 2 ^ 29 →
        ptsGap (mainPresents env fuel inp) i ≤ 3 / 10 →
        |interval (mainPresents env fuel inp) i - ptsGap (mainPresents env fuel inp) i| ≤
          3 / 1000 + 1 / 2 ^ 28) ∧
      ((∀ j, j ≤ i → ptsGap (mainPresents env fuel inp) j ≤ 3 / 10) →
        |interval (mainPresents env fuel inp) i - ptsGap (mainPresents env fuel inp) i| ≤
          3 / 1000 + 1 / 2 ^ 28) := by
  obtain ⟨ts, c, hts, hps⟩ := main_pure env hideal hdrain fuel inp
  have hmp : mainPresents env fuel inp = pureRun (-1, c) c ts := hps
  refine ⟨?_, ?_, ?_⟩
  · rw [hmp, pureRun_map_fst]
    exact hts
  · intro hargc hpass hplay haudio
    rw [mainPresents_full env hideal hdrain fuel inp hargc hpass hplay haudio, pureRun_map_fst]
  · rw [hmp]
    cases ts with
    | nil =>
      intro i hi
      simp [pureRun] at hi
    | cons t0 rest =>
      have h0 : 0 ≤ t0 := (hrange t0 (hts.subset (List.mem_cons_self _ _))).1
      have hch : List.Chain (· < ·) t0 rest := hinc.prefix hts
      have hr : ∀ t ∈ rest, t - t0 ≤ 1048576 := fun t ht => by
        have := (hrange t (hts.subset (List.mem_cons_of_mem _ ht))).2
        linarith
      have hrun : pureRun (-1, c) c (t0 :: rest) = (t0, c) :: pureRun (t0, c) c rest := by
        simp [pureRun, pureStep_fresh (-1, c) c t0 (by norm_num)]
      rw [hrun]
      have he0 : earlyAt t0 c (t0, c) = 0 := by simp [earlyAt]
      obtain ⟨k1, k2⟩ := @pureRun_spacing t0 c h0 rest t0 c (by simp) (by simp)
        (by rw [he0]; norm_num) hch hr
      intro i hi
      have hi2 : i < rest.length := by simpa [pureRun_length] using hi
      have hearl : earliness ((t0, c) :: pureRun (t0, c) c rest) i =
          earlyAt t0 c (((t0, c) :: pureRun (t0, c) c rest).getD i (0, 0)) := by
        simp [earliness]
      obtain ⟨a1, a2, a3, a4⟩ := k1 i hi2
      rw [hearl]
      exact ⟨a1, a2, a3, a4, k2 (by rw [he0]; norm_num) i hi2⟩

theorem av_q2d_millis :
    av_q2d { num := 1, den := 1000 } = 1152921504606847 / 1152921504606846976 := by
  have e1 : toDouble 1 = 1 := toDouble_one
  have e1000 : toDouble 1000 = 1000 := by
    simpa using toDouble_natCast (n := 1000) (by norm_num) (by norm_num)
  simp only [av_q2d, Int.cast_one, Int.cast_ofNat, e1, e1000]
  rw [toDouble_eval (-10) 4611686018427388] <;> norm_num [abs_lt, le_abs]

theorem longGapInput_pts :
    videoPts longGapInput.tb longGapInput.vIdx longGapInput.packets =
      [0, 1, 1170935903116329 / 1125899906842624] := by
  have e1000 : toDouble 1000 = 1000 := by
    simpa using toDouble_natCast (n := 1000) (by norm_num) (by norm_num)
  have e1040 : toDouble 1040 = 1040 := by
    simpa using toDouble_natCast (n := 1040) (by norm_num) (by norm_num)
  have f0 : framePts { num := 1, den := 1000 } { pts := 0, escape := false } = 0 := by
    simp [framePts, toDouble_zero]
  have f1 : framePts { num := 1, den := 1000 } { pts := 1000, escape := false } = 1 := by
    simp only [framePts, av_q2d_millis, Int.cast_ofNat, e1000]
    rw [toDouble_eval 0 4503599627370496] <;> norm_num [abs_lt, le_abs]
  have f2 : framePts { num := 1, den := 1000 } { pts := 1040, escape := false } =
      1170935903116329 / 1125899906842624 := by
    simp only [framePts, av_q2d_millis, Int.cast_ofNat, e1040]
    rw [toDouble_eval 0 4683743612465316] <;> norm_num [abs_lt, le_abs]
  simp [longGapInput, framePacket, videoPts, f0, f1, f2]

theorem longGapInput_presents :
    mainPresents idealEnv 1 longGapInput =
      [(0, 0), (1, 300000000), (1170935903116329 / 1125899906842624, 600000000)] := by
  rw [mainPresents_full idealEnv (fun _ => rfl) (fun _ => Nat.one_pos) 1 longGapInput
    (by decide) (by simp [SetupFails, longGapInput, videoOk])
    (by simp [Uninterrupted, longGapInput, framePacket]) (Or.inl (by decide)),
    longGapInput_pts]
  simp only [pureRun]
  rw [pureStep_fresh (-1, 0) 0 0 (by norm_num)]
  simp only []
  rw [pureStep_clamped (le_refl 0) (by norm_num) (by norm_num) (by norm_num)]
  simp only []
  rw [pureStep_clamped (le_refl 0) (by norm_num) (by norm_num) (by norm_num)]
  norm_num

/-- C3 as stated fails. The decoded timestamps 0 s, 1 s and 1.04 s are strictly increasing and
the last gap is 40 ms, at most 300 ms. With no wall time passing outside of sleeps, `main`
presents the frames at 0 s, 0.3 s and 0.6 s: the second frame is presented 0.7 s before its
target because its sleep is clamped, the third still has a lead above 300 ms and sleeps 300 ms,
so the last two presentations are 300 ms apart, 260 ms more than the gap of the timestamps. -/
theorem pacing_intervals_counterexample :
    (∀ k, idealEnv.work k = 0) ∧
    List.Chain' (· < ·) (videoPts longGapInput.tb longGapInput.vIdx longGapInput.packets) ∧
    mainPresents idealEnv 1 longGapInput =
      [(0, 0), (1, 300000000), (1170935903116329 / 1125899906842624, 600000000)] ∧
    ptsGap (mainPresents idealEnv 1 longGapInput) 1 ≤ 3 / 10 ∧
    ¬ |interval (mainPresents idealEnv 1 longGapInput) 1 -
        ptsGap (mainPresents idealEnv 1 longGapInput) 1| ≤ 3 / 1000 := by
  rw [longGapInput_presents, longGapInput_pts]
  refine ⟨fun _ => rfl, by norm_num, rfl, by norm_num [ptsGap], ?_⟩
  norm_num [interval, ptsGap, abs_le]

theorem threeMsInput_pts :
    videoPts threeMsInput.tb threeMsInput.vIdx threeMsInput.packets =
      [0, 3458764513820541 / 1152921504606846976] := by
  have e3 : toDouble 3 = 3 := by
    simpa using toDouble_natCast (n := 3) (by norm_num) (by norm_num)
  have f0 : framePts { num := 1, den := 1000 } { pts := 0, escape := false } = 0 := by
    simp [framePts, toDouble_zero]
  have f1 : framePts { num := 1, den := 1000 } { pts := 3, escape := false } =
      3458764513820541 / 1152921504606846976 := by
    simp only [framePts, av_q2d_millis, Int.cast_ofNat, e3]
    rw [toDouble_eval (-9) 6917529027641082] <;> norm_num [abs_lt, le_abs]
  simp [threeMsInput, framePacket, videoPts, f0, f1]

/-- The slack of 3 ms is not exact in `double` arithmetic. The timestamps 0 and 3 in the time
base 1/1000 decode to 0 s and to the `double` nearest to 0.003, which is also the constant
`0.003` the lead is compared with; the lead of the second frame is not above it, so both frames
are presented at the same instant, while the gap of the timestamps is above 3/1000 (by less than
`2 ^ -60`). -/
theorem three_ms_gap_unpaced :
    mainPresents idealEnv 1 threeMsInput =
      [(0, 0), (3458764513820541 / 1152921504606846976, 0)] ∧
    ptsGap (mainPresents idealEnv 1 threeMsInput) 0 ≤ 3 / 10 ∧
    ¬ |interval (mainPresents idealEnv 1 threeMsInput) 0 -
        ptsGap (mainPresents idealEnv 1 threeMsInput) 0| ≤ 3 / 1000 := by
  have e : toDouble (3458764513820541 / 1152921504606846976) =
      3458764513820541 / 1152921504606846976 := by
    rw [toDouble_eval (-9) 6917529027641082] <;> norm_num [abs_lt, le_abs]
  have hs : pacingSleep (3458764513820541 / 1152921504606846976) = none :=
    pacingSleep_of_late (by rw [d003_eq])
  have hp : mainPresents idealEnv 1 threeMsInput =
      [(0, 0), (3458764513820541 / 1152921504606846976, 0)] := by
    rw [mainPresents_full idealEnv (fun _ => rfl) (fun _ => Nat.one_pos) 1 threeMsInput
      (by decide) (by simp [SetupFails, threeMsInput, videoOk])
      (by simp [Uninterrupted, threeMsInput, framePacket]) (Or.inl (by decide)),
      threeMsInput_pts]
    simp only [pureRun]
    rw [pureStep_fresh (-1, 0) 0 0 (by norm_num)]
    simp [pureStep, toDouble_zero, e, hs]
  rw [hp]
  refine ⟨rfl, by norm_num [ptsGap], ?_⟩
  norm_num [interval, ptsGap, abs_le]

theorem steadyInput_pts :
    videoPts steadyInput.tb steadyInput.vIdx steadyInput.packets = [0, 1 / 4] := by
  have e1 : toDouble 1 = 1 := toDouble_one
  have e4 : toDouble 4 = 4 := by
    simpa using toDouble_natCast (n := 4) (by norm_num) (by norm_num)
  have eq : toDouble (1 / 4) = 1 / 4 := by
    rw [toDouble_eval (-2) 4503599627370496] <;> norm_num [abs_lt, le_abs]
  have f0 : framePts { num := 1, den := 4 } { pts := 0, escape := false } = 0 := by
    simp [framePts, toDouble_zero]
  have f1 : framePts { num := 1, den := 4 } { pts := 1, escape := false } = 1 / 4 := by
    simp only [framePts, av_q2d, Int.cast_one, Int.cast_ofNat, e1, e4, eq, one_mul]
  simp [steadyInput, framePacket, audioPacket, videoPts, f0, f1]

theorem pacing_intervals_witness :
    (∀ k, idealEnv.work k = 0) ∧ (∀ k, 0 < idealEnv.drain k) ∧
    List.Chain' (· < ·) (videoPts steadyInput.tb steadyInput.vIdx steadyInput.packets) ∧
    (∀ t ∈ videoPts steadyInput.tb steadyInput.vIdx steadyInput.packets,
      0 ≤ t ∧ t ≤ 1048576) ∧
    (mainPresents idealEnv 1 steadyInput).map Prod.fst = [0, 1 / 4] ∧
    |interval (mainPresents idealEnv 1 steadyInput) 0 -
      ptsGap (mainPresents idealEnv 1 steadyInput) 0| ≤ 3 / 1000 + 1 / 2 ^ 28 := by
  have h1 : ∀ k, idealEnv.work k = 0 := fun _ => rfl
  have h2 : ∀ k, 0 < idealEnv.drain k := fun _ => Nat.one_pos
  have h3 : List.Chain' (· < ·)
      (videoPts steadyInput.tb steadyInput.vIdx steadyInput.packets) := by
    rw [steadyInput_pts]
    norm_num
  have h4 : ∀ t ∈ videoPts steadyInput.tb steadyInput.vIdx steadyInput.packets,
      0 ≤ t ∧ t ≤ 1048576 := by
    rw [steadyInput_pts]
    intro t ht
    simp only [List.mem_cons, List.mem_singleton, List.not_mem_nil, or_false] at ht
    rcases ht with rfl | rfl <;> norm_num
  obtain ⟨_, hall, hsp⟩ := pacing_intervals idealEnv 1 steadyInput h1 h2 h3 h4
  have hwell : AudioWellBehaved steadyInput := by
    intro pkt hpkt f hf
    simp only [steadyInput, List.mem_cons, List.mem_singleton, List.not_mem_nil, or_false]
      at hpkt
    rcases hpkt with rfl | rfl | rfl
    · simp [framePacket] at hf
    · simp only [audioPacket, List.mem_singleton] at hf
      subst hf
      norm_num [oneSample, Contract]
    · simp [framePacket] at hf
  have hfst := hall (by decide) (by simp [SetupFails, steadyInput, videoOk])
    (by simp [Uninterrupted, steadyInput, framePacket, audioPacket])
    (Or.inr (Or.inr ⟨by simp [DeviceCreated, steadyInput, audioOk], le_refl 1, hwell⟩))
  rw [steadyInput_pts] at hfst
  refine ⟨h1, h2, h3, h4, hfst, ?_⟩
  revert hfst hsp
  generalize mainPresents idealEnv 1 steadyInput = ps
  intro hsp hfst
  rcases ps with _ | ⟨a, _ | ⟨b, _ | ⟨x, l⟩⟩⟩
  · simp at hfst
  · simp at hfst
  · simp only [List.map_cons, List.map_nil, List.cons.injEq, and_true] at hfst
    refine (hsp 0 (by simp)).2.2.2.1 ?_ ?_
    · simp [earliness, earlyAt]
      norm_num
    · simp only [ptsGap_cons_cons_zero, hfst.1, hfst.2]
      norm_num
  · simp at hfst

end VideoPlayer
